import Mathlib

/-!
# Order placement and status update of the in-memory order service (`main.go`)

A shallow embedding of the two mutating HTTP handlers of `main.go`,
`placeOrderHandler` and `updateOrderStatusHandler`, over the two global maps
`ProductCatalog` and `OrderMap`, followed by theorems about them.

Modelling conventions.

* Go `int` is the 64-bit two's-complement integer of the usual targets.  Values are
  carried as `Int`; the one integer operation of the handlers that can leave the range,
  `product.Availability - p.Quantity`, is wrapped by `wrapInt`.  The two counters
  `premiumCount` and `len(OrderMap) + 1` count elements held in memory and are carried
  without wrap-around.
* `float64` prices and totals are read as exact rationals (`ℚ`); `0.9` is `9 / 10`.
* `time.Time` is a natural number of clock ticks, `0` being the zero `time.Time`;
  `time.Now()` is an explicit argument.
* `map[int]Product` is a partial function; `map[int]Order`, whose `len` the code uses,
  is a key/value list with the Go operations `m[k]`, `m[k] = v` and `len(m)`.
* The request body is taken after `json.Decode`: a whole `Order` value, all fields of
  which the client controls.  HTTP method dispatch and the encoding of the response are
  outside the model.  Each handler runs to completion before the next one starts.
-/

namespace GolangTest

/-! ## Data model -/

/-- Two's-complement wrap-around of a 64-bit Go `int`. -/
def wrapInt (x : Int) : Int := (x + 2 ^ 63) % 2 ^ 64 - 2 ^ 63

/-- A value that fits a 64-bit Go `int`. -/
def IsGoInt (x : Int) : Prop := -(2 ^ 63) ≤ x ∧ x < 2 ^ 63

instance (x : Int) : Decidable (IsGoInt x) := by unfold IsGoInt; infer_instance

/-- Clock reading standing for `time.Time`; `0` is the zero value. -/
abbrev Time := Nat

/-- The struct `Product` of `main.go`. -/
structure Product where
  ID : Int
  Name : String
  Category : String
  Price : ℚ
  Availability : Int
  Quantity : Int
deriving DecidableEq

/-- The struct `Order` of `main.go`. -/
structure Order where
  ID : Int
  Products : List Product
  OrderValue : ℚ
  DispatchDate : Time
  OrderStatus : String
deriving DecidableEq

/-- The type `map[int]Product` of the global `ProductCatalog`. -/
abbrev Catalog := Int → Option Product

/-- Go map assignment `m[k] = v` on a catalog. -/
def Catalog.set (m : Catalog) (k : Int) (v : Product) : Catalog :=
  fun i => if i = k then some v else m i

/-- The zero value of `Product`, which a Go map read yields for an absent key. -/
def Product.zero : Product := ⟨0, "", "", 0, 0, 0⟩

/-- Go single-value map read `m[k]` on a catalog. -/
def Catalog.read (m : Catalog) (k : Int) : Product := (m k).getD Product.zero

/-- The type `map[int]Order` of the global `OrderMap`, as a key/value list. -/
structure Ledger where
  entries : List (Int × Order)
deriving DecidableEq

/-- Lookup in a key/value list: the first entry under the key. -/
def lookupEntries : List (Int × Order) → Int → Option Order
  | [], _ => none
  | (k', v) :: rest, k => if k' = k then some v else lookupEntries rest k

/-- Assignment in a key/value list: overwrite the entry under the key, or add one. -/
def assignEntries : List (Int × Order) → Int → Order → List (Int × Order)
  | [], k, v => [(k, v)]
  | (k', v') :: rest, k, v =>
    if k' = k then (k, v) :: rest else (k', v') :: assignEntries rest k v

/-- The empty map `make(map[int]Order)`. -/
def Ledger.empty : Ledger := ⟨[]⟩

/-- Go map read `v, ok := m[k]`. -/
def Ledger.get (m : Ledger) (k : Int) : Option Order := lookupEntries m.entries k

/-- Go map assignment `m[k] = v`. -/
def Ledger.set (m : Ledger) (k : Int) (v : Order) : Ledger := ⟨assignEntries m.entries k v⟩

/-- Go `len(m)`. -/
def Ledger.len (m : Ledger) : Nat := m.entries.length

/-- The keys of the map, in list order. -/
def Ledger.keys (m : Ledger) : List Int := m.entries.map Prod.fst

/-- The two global maps of the process. -/
structure State where
  ProductCatalog : Catalog
  OrderMap : Ledger

/-- The two failure responses of the handlers that concern the stores: the
400 responses "Product not found in catalog" / "Order not found" (`NotFound`) and
"Requested quantity not available for product" (`InsufficientStock`). -/
inductive Failure where
  | NotFound
  | InsufficientStock
deriving DecidableEq

/-- The initial value of the global `ProductCatalog`. -/
def ProductCatalog : Catalog := fun k =>
  if k = 1 then some ⟨1, "Product1", "Premium", 100, 10, 0⟩
  else if k = 2 then some ⟨2, "Product2", "Regular", 150, 20, 0⟩
  else if k = 3 then some ⟨3, "Product3", "Budget", 200, 30, 0⟩
  else if k = 4 then some ⟨4, "Product4", "Premium", 100, 50, 0⟩
  else if k = 5 then some ⟨5, "Product5", "Premium", 90, 25, 0⟩
  else if k = 6 then some ⟨6, "Product6", "Budget", 200, 15, 0⟩
  else none

/-- The initial state of the process: the seeded catalog and the empty order map. -/
def initState : State := ⟨ProductCatalog, Ledger.empty⟩

/-! ## `placeOrderHandler` -/

/-- The local variables of `placeOrderHandler` that the loop over `order.Products`
updates, together with the global `ProductCatalog` it writes. -/
structure LoopVars where
  premiumCount : Nat
  products : List Product
  orderValue : ℚ
  catalog : Catalog

/-- One iteration of the loop `for _, p := range order.Products` (lines 96-129): either
the early `return` with its failure, or the variables after the iteration. -/
def loopBody (p : Product) (v : LoopVars) : Except Failure LoopVars :=
  match v.catalog p.ID with
  | none => .error .NotFound
  | some product =>
    if p.Quantity > product.Availability ∨ p.Quantity > 10 then
      .error .InsufficientStock
    else
      let orderValue := v.orderValue + (p.Quantity : ℚ) * product.Price
      let (premiumCount, orderValue) :=
        if product.Category = "Premium" then
          let premiumCount := v.premiumCount + 1
          if premiumCount ≥ 3 then (premiumCount, orderValue * (9 / 10))
          else (premiumCount, orderValue)
        else (v.premiumCount, orderValue)
      let catalog := v.catalog.set p.ID
        { ID := product.ID, Name := product.Name, Category := product.Category,
          Price := product.Price,
          Availability := wrapInt (product.Availability - p.Quantity),
          Quantity := 0 }
      let products := v.products ++ [catalog.read p.ID]
      .ok { premiumCount := premiumCount, products := products,
            orderValue := orderValue, catalog := catalog }

/-- The loop over `order.Products`: the failure of the first iteration that returns
early, if any, and the variables as they stand when the loop is left.  An early
`return` leaves the writes of the earlier iterations in `ProductCatalog`. -/
def placeOrderLoop : List Product → LoopVars → Option Failure × LoopVars
  | [], v => (none, v)
  | p :: ps, v =>
    match loopBody p v with
    | .error e => (some e, v)
    | .ok v' => placeOrderLoop ps v'

/-- The variables of `placeOrderHandler` on entry to the loop. -/
def loopInit (c : Catalog) : LoopVars :=
  { premiumCount := 0, products := [], orderValue := 0, catalog := c }

/-- The handler `placeOrderHandler` on a decoded request `order`: the response (the encoded
`order` variable, or the failure) and the globals afterwards. -/
def placeOrderHandler (s : State) (order : Order) : Except Failure Order × State :=
  match placeOrderLoop order.Products (loopInit s.ProductCatalog) with
  | (some e, v) => (.error e, { ProductCatalog := v.catalog, OrderMap := s.OrderMap })
  | (none, v) =>
    let id : Int := (s.OrderMap.len : Int) + 1
    let stored : Order :=
      { ID := id, Products := v.products, OrderValue := v.orderValue,
        DispatchDate := 0, OrderStatus := "Placed" }
    (.ok { order with ID := id, OrderStatus := "Placed", Products := v.products,
                      OrderValue := v.orderValue },
     { ProductCatalog := v.catalog, OrderMap := s.OrderMap.set id stored })

/-! ## `updateOrderStatusHandler` -/

/-- The handler `updateOrderStatusHandler` on a decoded request `o`, `now` being the value
of `time.Now()`. -/
def updateOrderStatusHandler (s : State) (o : Order) (now : Time) :
    Except Failure Order × State :=
  match s.OrderMap.get o.ID with
  | none => (.error .NotFound, s)
  | some order =>
    let order := if o.OrderStatus = "Dispatched" then { order with DispatchDate := now }
      else order
    let order := { order with OrderStatus := o.OrderStatus }
    (.ok order, { ProductCatalog := s.ProductCatalog, OrderMap := s.OrderMap.set order.ID order })

/-! ## The service as a state machine -/

/-- A request to one of the two mutating endpoints, after decoding; `now` is the clock
reading the status handler would take. -/
inductive Request where
  | placeOrder (order : Order)
  | updateOrderStatus (o : Order) (now : Time)

/-- Serve one request. -/
def handle (s : State) : Request → Except Failure Order × State
  | .placeOrder order => placeOrderHandler s order
  | .updateOrderStatus o now => updateOrderStatusHandler s o now

/-- The globals after serving the requests one after the other. -/
def run (s : State) : List Request → State
  | [] => s
  | r :: rs => run (handle s r).2 rs

/-- Whether a response is a success. -/
def succeeded : Except Failure Order → Bool
  | .ok _ => true
  | .error _ => false

/-- The number of `placeOrder` requests answered with success while serving the requests
one after the other. -/
def placedCount (s : State) : List Request → Nat
  | [] => 0
  | .placeOrder order :: rs =>
    (if succeeded (placeOrderHandler s order).1 then 1 else 0)
      + placedCount (placeOrderHandler s order).2 rs
  | .updateOrderStatus o now :: rs => placedCount (updateOrderStatusHandler s o now).2 rs

/-! ## Notions used to state the properties -/

/-- Validation of one request line against a catalog, in the words of the specification:
`NotFound` when the product is absent, `InsufficientStock` when the requested quantity
exceeds the available quantity or the per-line cap of 10, no failure otherwise. -/
def lineFailure (c : Catalog) (p : Product) : Option Failure :=
  match c p.ID with
  | none => some .NotFound
  | some product =>
    if product.Availability < p.Quantity ∨ 10 < p.Quantity then some .InsufficientStock
    else none

/-- The catalog after the write of one loop iteration (lines 121-127) for the line `p`;
a line whose product is absent writes nothing. -/
def commitLine (c : Catalog) (p : Product) : Catalog :=
  match c p.ID with
  | none => c
  | some product =>
    c.set p.ID { ID := product.ID, Name := product.Name, Category := product.Category,
                 Price := product.Price,
                 Availability := wrapInt (product.Availability - p.Quantity),
                 Quantity := 0 }

/-- The catalog after the writes of the given lines, in order. -/
def commitLines (c : Catalog) (ps : List Product) : Catalog := ps.foldl commitLine c

/-- The catalog entry of each line's product, read right after that line's write. -/
def snapshots : Catalog → List Product → List Product
  | _, [] => []
  | c, p :: ps => (commitLine c p).read p.ID :: snapshots (commitLine c p) ps

/-- The amount `price * quantity` of a line, the price being the catalog's. -/
def lineAmount (c : Catalog) (p : Product) : ℚ := (p.Quantity : ℚ) * (c.read p.ID).Price

/-- Whether a line resolves to a product of category "Premium". -/
def isPremiumLine (c : Catalog) (p : Product) : Bool :=
  decide ((c.read p.ID).Category = "Premium")

/-- The sum of `price * quantity` over the lines, with no reduction. -/
def plainSum (c : Catalog) (ps : List Product) : ℚ := (ps.map (lineAmount c)).sum

/-- The number of lines that resolve to a "Premium" product. -/
def premiumLines (c : Catalog) (ps : List Product) : Nat := (ps.filter (isPremiumLine c)).length

/-- The first line that fails validation, the lines being validated in input order, each
against the catalog as written by the lines before it: its index and its failure. -/
def firstFailure : Catalog → List Product → Option (Nat × Failure)
  | _, [] => none
  | c, p :: ps =>
    match lineFailure c p with
    | some e => some (0, e)
    | none => (firstFailure (commitLine c p) ps).map (fun r => (r.1 + 1, r.2))

/-- The pricing rule, from a premium count and a running total: each line adds its amount
to the running total; a "Premium" line raises the premium count; after a "Premium" line
that brings the count to 3 or more the whole running total is multiplied by 0.9. -/
def priceFrom (c : Catalog) : Nat → ℚ → List Product → ℚ
  | _, total, [] => total
  | n, total, p :: ps =>
    let total := total + lineAmount c p
    let n := n + (if isPremiumLine c p then 1 else 0)
    priceFrom c n (if isPremiumLine c p = true ∧ 3 ≤ n then total * (9 / 10) else total) ps

/-- The pricing rule with the reduction on every line once the premium count has reached
3, whether the line is "Premium" or not. -/
def priceEveryLineFrom (c : Catalog) : Nat → ℚ → List Product → ℚ
  | _, total, [] => total
  | n, total, p :: ps =>
    let total := total + lineAmount c p
    let n := n + (if isPremiumLine c p then 1 else 0)
    priceEveryLineFrom c n (if 3 ≤ n then total * (9 / 10) else total) ps

/-- Whether the 10% reduction is applied right after adding line `i`: the line is
"Premium" and it is the third or a later "Premium" line of the request. -/
def reducesAfter (c : Catalog) (ps : List Product) (i : Nat) : Bool :=
  match ps[i]? with
  | some p => isPremiumLine c p && decide (3 ≤ premiumLines c (ps.take (i + 1)))
  | none => false

/-- The number of reductions applied after the lines of index `i` or more: the number of
times the amount of line `i` is multiplied by 0.9. -/
def reductionsFrom (c : Catalog) (ps : List Product) (i : Nat) : Nat :=
  (((List.range ps.length).map (reducesAfter c ps)).drop i).count true

/-- The reductions line by line, from a premium count `n` reached before the lines: the
recursive form of `reducesAfter` used in the proofs. -/
def discountFlagsFrom (c : Catalog) : Nat → List Product → List Bool
  | _, [] => []
  | n, p :: ps =>
    (isPremiumLine c p && decide (3 ≤ n + 1)) ::
      discountFlagsFrom c (n + (if isPremiumLine c p then 1 else 0)) ps

/-- The total quantity that the lines naming the product `k` ask for. -/
def orderedOf (ps : List Product) (k : Int) : Int :=
  ((ps.filter (fun p => decide (p.ID = k))).map Product.Quantity).sum

/-- A catalog whose stocks are non-negative Go `int` values. -/
def StockInRange (c : Catalog) : Prop :=
  ∀ k p, c k = some p → 0 ≤ p.Availability ∧ IsGoInt p.Availability

/-- Whether, while the requests are served one after the other from the state `s`, the
order `k` receives an `updateOrderStatus` with the status "Dispatched": some such request
names `k` at a moment when `k` is a key of the order map. -/
def dispatchServed (s : State) : List Request → Int → Bool
  | [], _ => false
  | r :: rs, k =>
    (match r with
      | .updateOrderStatus o _ =>
        decide (o.ID = k) && decide (o.OrderStatus = "Dispatched") && (s.OrderMap.get k).isSome
      | .placeOrder _ => false)
      || dispatchServed (handle s r).2 rs k

/-- The shape of the order map as the handlers build it: its keys are exactly
`1 .. len`, and every order is stored under its own `ID`. -/
def LedgerInv (m : Ledger) : Prop :=
  (∀ k, (m.get k).isSome ↔ 1 ≤ k ∧ k ≤ (m.len : Int)) ∧
    ∀ k o, m.get k = some o → o.ID = k

/-! ## Concrete requests -/

/-- A request line as a client sends it: a product ID and a quantity. -/
def line (id quantity : Int) : Product := ⟨id, "", "", 0, 0, quantity⟩

/-- A request that carries only lines. -/
def request (lines : List Product) : Order := ⟨0, lines, 0, 0, ""⟩


/-! # Lemmas and theorems -/

/-! ## Lemmas on the maps -/

theorem Catalog.set_same (m : Catalog) (k : Int) (v : Product) : m.set k v k = some v := by
  simp [Catalog.set]

theorem Catalog.set_other (m : Catalog) (k : Int) (v : Product) (i : Int) (h : i ≠ k) :
    m.set k v i = m i := by
  simp [Catalog.set, h]

theorem lookup_assign_same (l : List (Int × Order)) (k : Int) (v : Order) :
    lookupEntries (assignEntries l k v) k = some v := by
  induction l with
  | nil => simp [assignEntries, lookupEntries]
  | cons e rest ih =>
    obtain ⟨k', v'⟩ := e
    by_cases h : k' = k
    · simp [assignEntries, lookupEntries, h]
    · simp [assignEntries, lookupEntries, h, ih]

theorem lookup_assign_other (l : List (Int × Order)) (k : Int) (v : Order) (i : Int)
    (h : i ≠ k) : lookupEntries (assignEntries l k v) i = lookupEntries l i := by
  induction l with
  | nil => simp [assignEntries, lookupEntries, Ne.symm h]
  | cons e rest ih =>
    obtain ⟨k', v'⟩ := e
    by_cases hk : k' = k
    · subst hk
      simp [assignEntries, lookupEntries, Ne.symm h]
    · by_cases hi : k' = i
      · subst hi
        simp [assignEntries, lookupEntries, hk]
      · simp [assignEntries, lookupEntries, hk, hi, ih]

theorem length_assign_absent (l : List (Int × Order)) (k : Int) (v : Order)
    (h : lookupEntries l k = none) : (assignEntries l k v).length = l.length + 1 := by
  induction l with
  | nil => simp [assignEntries]
  | cons e rest ih =>
    obtain ⟨k', v'⟩ := e
    by_cases hk : k' = k
    · simp [lookupEntries, hk] at h
    · simp [lookupEntries, hk] at h
      simp [assignEntries, hk, ih h]

theorem length_assign_present (l : List (Int × Order)) (k : Int) (v : Order)
    (h : (lookupEntries l k).isSome) : (assignEntries l k v).length = l.length := by
  induction l with
  | nil => simp [lookupEntries] at h
  | cons e rest ih =>
    obtain ⟨k', v'⟩ := e
    by_cases hk : k' = k
    · simp [assignEntries, hk]
    · simp [lookupEntries, hk] at h
      simp [assignEntries, hk, ih h]

theorem Ledger.get_set_same (m : Ledger) (k : Int) (v : Order) : (m.set k v).get k = some v :=
  lookup_assign_same m.entries k v

theorem Ledger.get_set_other (m : Ledger) (k : Int) (v : Order) (i : Int) (h : i ≠ k) :
    (m.set k v).get i = m.get i :=
  lookup_assign_other m.entries k v i h

theorem Ledger.len_set_absent (m : Ledger) (k : Int) (v : Order) (h : m.get k = none) :
    (m.set k v).len = m.len + 1 :=
  length_assign_absent m.entries k v h

theorem Ledger.len_set_present (m : Ledger) (k : Int) (v : Order) (h : (m.get k).isSome) :
    (m.set k v).len = m.len :=
  length_assign_present m.entries k v h

/-! ## Lemmas on the loop of `placeOrderHandler` -/

/-- An iteration on a line that passes validation, in terms of `commitLine`,
`lineAmount` and `isPremiumLine`. -/
theorem loopBody_of_pass (p : Product) (v : LoopVars) (h : lineFailure v.catalog p = none) :
    loopBody p v = .ok
      { premiumCount := v.premiumCount + (if isPremiumLine v.catalog p then 1 else 0),
        products := v.products ++ [(commitLine v.catalog p).read p.ID],
        orderValue :=
          (if isPremiumLine v.catalog p = true ∧ 3 ≤ v.premiumCount + 1
            then (v.orderValue + lineAmount v.catalog p) * (9 / 10)
            else v.orderValue + lineAmount v.catalog p),
        catalog := commitLine v.catalog p } := by
  unfold lineFailure at h
  cases hc : v.catalog p.ID with
  | none => simp [hc] at h
  | some product =>
    simp only [hc] at h
    have hq : ¬ (p.Quantity > product.Availability ∨ p.Quantity > 10) := by
      intro hh
      simp only [gt_iff_lt] at hh
      simp [hh] at h
    by_cases hprem : product.Category = "Premium"
    · by_cases h3 : v.premiumCount + 1 ≥ 3
      · have h3' : 3 ≤ v.premiumCount + 1 := h3
        simp only [loopBody, hc, hq, if_false, hprem, if_true, h3]
        simp [commitLine, hc, isPremiumLine, Catalog.read, hprem, lineAmount, h3']
      · have h3' : ¬ 3 ≤ v.premiumCount + 1 := h3
        simp only [loopBody, hc, hq, if_false, hprem, if_true, h3]
        simp [commitLine, hc, isPremiumLine, Catalog.read, hprem, lineAmount, h3']
    · simp only [loopBody, hc, hq, if_false, hprem]
      simp [commitLine, hc, isPremiumLine, Catalog.read, hprem, lineAmount]

theorem loopBody_of_fail (p : Product) (v : LoopVars) (e : Failure)
    (h : lineFailure v.catalog p = some e) : loopBody p v = .error e := by
  unfold lineFailure at h
  cases hc : v.catalog p.ID with
  | none =>
    simp only [hc] at h
    simp only [loopBody, hc]
    cases h; rfl
  | some product =>
    simp only [hc] at h
    by_cases hq : product.Availability < p.Quantity ∨ 10 < p.Quantity
    · simp only [hq, if_true] at h
      have hq' : p.Quantity > product.Availability ∨ p.Quantity > 10 := hq
      simp only [loopBody, hc, hq', if_true]
      cases h; rfl
    · simp [hq] at h

/-! ### Writes keep every field but the stock -/

theorem commitLine_isSome (c : Catalog) (q : Product) (k : Int) :
    (commitLine c q k).isSome = (c k).isSome := by
  unfold commitLine
  cases hc : c q.ID with
  | none => rfl
  | some product =>
    by_cases hk : k = q.ID
    · simp [Catalog.set, hk, hc]
    · simp [Catalog.set, hk]

theorem commitLine_fields (c : Catalog) (q : Product) (k : Int) :
    (commitLine c q k).map (fun x => (x.ID, x.Name, x.Category, x.Price)) =
      (c k).map (fun x => (x.ID, x.Name, x.Category, x.Price)) := by
  unfold commitLine
  cases hc : c q.ID with
  | none => rfl
  | some product =>
    by_cases hk : k = q.ID
    · simp [Catalog.set, hk, hc]
    · simp [Catalog.set, hk]

theorem commitLine_other (c : Catalog) (q : Product) (k : Int) (h : k ≠ q.ID) :
    commitLine c q k = c k := by
  unfold commitLine
  cases hc : c q.ID with
  | none => rfl
  | some product => simp [Catalog.set, h]

theorem commitLine_read_price (c : Catalog) (q : Product) (k : Int) :
    ((commitLine c q).read k).Price = (c.read k).Price := by
  have h := commitLine_fields c q k
  unfold Catalog.read
  cases h1 : commitLine c q k <;> cases h2 : c k <;> simp_all

theorem commitLine_read_category (c : Catalog) (q : Product) (k : Int) :
    ((commitLine c q).read k).Category = (c.read k).Category := by
  have h := commitLine_fields c q k
  unfold Catalog.read
  cases h1 : commitLine c q k <;> cases h2 : c k <;> simp_all

theorem lineAmount_commitLine (c : Catalog) (q p : Product) :
    lineAmount (commitLine c q) p = lineAmount c p := by
  simp [lineAmount, commitLine_read_price]

theorem isPremiumLine_commitLine (c : Catalog) (q p : Product) :
    isPremiumLine (commitLine c q) p = isPremiumLine c p := by
  simp [isPremiumLine, commitLine_read_category]

theorem priceFrom_commitLine (c : Catalog) (q : Product) (ps : List Product) (n : Nat)
    (t : ℚ) : priceFrom (commitLine c q) n t ps = priceFrom c n t ps := by
  induction ps generalizing n t with
  | nil => rfl
  | cons p ps ih =>
    simp only [priceFrom, lineAmount_commitLine, isPremiumLine_commitLine, ih]

theorem premiumLines_commitLine (c : Catalog) (q : Product) (ps : List Product) :
    premiumLines (commitLine c q) ps = premiumLines c ps := by
  have : isPremiumLine (commitLine c q) = isPremiumLine c := by
    funext p; exact isPremiumLine_commitLine c q p
  simp [premiumLines, this]

theorem plainSum_commitLine (c : Catalog) (q : Product) (ps : List Product) :
    plainSum (commitLine c q) ps = plainSum c ps := by
  have : lineAmount (commitLine c q) = lineAmount c := by
    funext p; exact lineAmount_commitLine c q p
  simp [plainSum, this]

/-! ### The loop in terms of the first failing line -/

theorem placeOrderLoop_fst (ps : List Product) (v : LoopVars) :
    (placeOrderLoop ps v).1 = (firstFailure v.catalog ps).map Prod.snd := by
  induction ps generalizing v with
  | nil => rfl
  | cons p ps ih =>
    cases hf : lineFailure v.catalog p with
    | some e => simp [placeOrderLoop, firstFailure, loopBody_of_fail p v e hf, hf]
    | none =>
      simp only [placeOrderLoop, firstFailure, loopBody_of_pass p v hf, hf, ih]
      cases firstFailure (commitLine v.catalog p) ps <;> rfl

theorem placeOrderLoop_of_pass (ps : List Product) (v : LoopVars)
    (h : firstFailure v.catalog ps = none) :
    placeOrderLoop ps v = (none,
      { premiumCount := v.premiumCount + premiumLines v.catalog ps,
        products := v.products ++ snapshots v.catalog ps,
        orderValue := priceFrom v.catalog v.premiumCount v.orderValue ps,
        catalog := commitLines v.catalog ps }) := by
  induction ps generalizing v with
  | nil => simp [placeOrderLoop, premiumLines, snapshots, priceFrom, commitLines]
  | cons p ps ih =>
    cases hf : lineFailure v.catalog p with
    | some e => simp [firstFailure, hf] at h
    | none =>
      have h' : firstFailure (commitLine v.catalog p) ps = none := by
        simpa [firstFailure, hf] using h
      simp only [placeOrderLoop, loopBody_of_pass p v hf]
      rw [ih _ h']
      simp only [premiumLines_commitLine, priceFrom_commitLine, snapshots, priceFrom,
        commitLines, List.foldl_cons, List.append_assoc, List.singleton_append]
      cases hp : isPremiumLine v.catalog p
      · simp [premiumLines, List.filter_cons, hp]
      · simp [premiumLines, List.filter_cons, hp]
        omega

theorem placeOrderLoop_of_fail (ps : List Product) (v : LoopVars) (i : Nat) (e : Failure)
    (h : firstFailure v.catalog ps = some (i, e)) :
    (placeOrderLoop ps v).1 = some e ∧
      (placeOrderLoop ps v).2.catalog = commitLines v.catalog (ps.take i) := by
  induction ps generalizing v i e with
  | nil => simp [firstFailure] at h
  | cons p ps ih =>
    cases hf : lineFailure v.catalog p with
    | some e' =>
      simp only [firstFailure, hf, Option.some.injEq, Prod.mk.injEq] at h
      obtain ⟨hi, he⟩ := h
      subst hi; subst he
      simp [placeOrderLoop, loopBody_of_fail p v e' hf, commitLines]
    | none =>
      simp only [firstFailure, hf] at h
      cases hr : firstFailure (commitLine v.catalog p) ps with
      | none => simp [hr] at h
      | some r =>
        obtain ⟨j, e'⟩ := r
        simp only [hr, Option.map_some', Option.some.injEq, Prod.mk.injEq] at h
        obtain ⟨hi, he⟩ := h
        subst hi; subst he
        obtain ⟨v', hv', hcat⟩ :
            ∃ v', loopBody p v = .ok v' ∧ v'.catalog = commitLine v.catalog p :=
          ⟨_, loopBody_of_pass p v hf, rfl⟩
        rw [← hcat] at hr
        have := ih v' j _ hr
        simp only [placeOrderLoop, hv']
        simpa [commitLines, hcat] using this

/-! ### The first failing line, by index -/

theorem firstFailure_eq_none_iff (c : Catalog) (ps : List Product) :
    firstFailure c ps = none ↔
      ∀ i p, ps[i]? = some p → lineFailure (commitLines c (ps.take i)) p = none := by
  induction ps generalizing c with
  | nil => simp [firstFailure]
  | cons p ps ih =>
    cases hf : lineFailure c p with
    | some e =>
      simp only [firstFailure, hf]
      constructor
      · intro h; cases h
      · intro h
        have := h 0 p (by simp)
        simp [commitLines, hf] at this
    | none =>
      simp only [firstFailure, hf, Option.map_eq_none', ih]
      constructor
      · intro h i q hq
        cases i with
        | zero =>
          simp only [List.getElem?_cons_zero, Option.some.injEq] at hq
          subst hq
          simpa [commitLines] using hf
        | succ i =>
          simp only [List.getElem?_cons_succ] at hq
          simpa [commitLines] using h i q hq
      · intro h i q hq
        have := h (i + 1) q (by simpa using hq)
        simpa [commitLines] using this

theorem firstFailure_eq_some_iff (c : Catalog) (ps : List Product) (i : Nat) (e : Failure) :
    firstFailure c ps = some (i, e) ↔
      (∃ p, ps[i]? = some p ∧ lineFailure (commitLines c (ps.take i)) p = some e) ∧
        ∀ j q, j < i → ps[j]? = some q →
          lineFailure (commitLines c (ps.take j)) q = none := by
  induction ps generalizing c i with
  | nil => simp [firstFailure]
  | cons p ps ih =>
    cases hf : lineFailure c p with
    | some e' =>
      simp only [firstFailure, hf, Option.some.injEq, Prod.mk.injEq]
      constructor
      · rintro ⟨rfl, rfl⟩
        exact ⟨⟨p, by simp, by simp [commitLines, hf]⟩, by intro j q hj; omega⟩
      · rintro ⟨⟨q, hq, hl⟩, hall⟩
        cases i with
        | zero =>
          simp only [List.getElem?_cons_zero, Option.some.injEq] at hq
          subst hq
          simp only [List.take_zero, commitLines, List.foldl_nil, hf, Option.some.injEq] at hl
          exact ⟨rfl, hl⟩
        | succ i =>
          have := hall 0 p (by omega) (by simp)
          simp [commitLines, hf] at this
    | none =>
      simp only [firstFailure, hf]
      constructor
      · intro h
        cases hr : firstFailure (commitLine c p) ps with
        | none => simp [hr] at h
        | some r =>
          obtain ⟨j, e'⟩ := r
          simp only [hr, Option.map_some', Option.some.injEq, Prod.mk.injEq] at h
          obtain ⟨rfl, rfl⟩ := h
          obtain ⟨⟨q, hq, hl⟩, hall⟩ := (ih (commitLine c p) j).1 hr
          refine ⟨⟨q, by simpa using hq, by simpa [commitLines] using hl⟩, ?_⟩
          intro k r hk hr'
          cases k with
          | zero =>
            simp only [List.getElem?_cons_zero, Option.some.injEq] at hr'
            subst hr'
            simpa [commitLines] using hf
          | succ k =>
            simp only [List.getElem?_cons_succ] at hr'
            simpa [commitLines] using hall k r (by omega) hr'
      · rintro ⟨⟨q, hq, hl⟩, hall⟩
        cases i with
        | zero =>
          simp only [List.getElem?_cons_zero, Option.some.injEq] at hq
          subst hq
          simp [commitLines, hf] at hl
        | succ i =>
          have hr : firstFailure (commitLine c p) ps = some (i, e) := by
            refine (ih (commitLine c p) i).2 ⟨⟨q, by simpa using hq, ?_⟩, ?_⟩
            · simpa [commitLines] using hl
            · intro j r hj hr'
              have := hall (j + 1) r (by omega) (by simpa using hr')
              simpa [commitLines] using this
          simp [hr]

/-! ### The handler in terms of the first failing line -/

theorem placeOrderHandler_of_pass (s : State) (order : Order)
    (h : firstFailure s.ProductCatalog order.Products = none) :
    placeOrderHandler s order =
      (.ok { ID := (s.OrderMap.len : Int) + 1,
             Products := snapshots s.ProductCatalog order.Products,
             OrderValue := priceFrom s.ProductCatalog 0 0 order.Products,
             DispatchDate := order.DispatchDate,
             OrderStatus := "Placed" },
       { ProductCatalog := commitLines s.ProductCatalog order.Products,
         OrderMap := s.OrderMap.set ((s.OrderMap.len : Int) + 1)
           { ID := (s.OrderMap.len : Int) + 1,
             Products := snapshots s.ProductCatalog order.Products,
             OrderValue := priceFrom s.ProductCatalog 0 0 order.Products,
             DispatchDate := 0,
             OrderStatus := "Placed" } }) := by
  have hl := placeOrderLoop_of_pass order.Products (loopInit s.ProductCatalog) h
  simp only [placeOrderHandler, hl]
  simp [loopInit]

theorem placeOrderHandler_of_fail (s : State) (order : Order) (i : Nat) (e : Failure)
    (h : firstFailure s.ProductCatalog order.Products = some (i, e)) :
    placeOrderHandler s order =
      (.error e, { ProductCatalog := commitLines s.ProductCatalog (order.Products.take i),
                   OrderMap := s.OrderMap }) := by
  have hl := placeOrderLoop_of_fail order.Products (loopInit s.ProductCatalog) i e h
  obtain ⟨h1, h2⟩ := hl
  unfold placeOrderHandler
  cases hp : placeOrderLoop order.Products (loopInit s.ProductCatalog) with
  | mk r v =>
    rw [hp] at h1 h2
    simp only at h1 h2
    subst h1
    simp [h2, loopInit]

theorem placeOrderHandler_ok_iff (s : State) (order : Order) :
    (∃ o, (placeOrderHandler s order).1 = .ok o) ↔
      firstFailure s.ProductCatalog order.Products = none := by
  cases hf : firstFailure s.ProductCatalog order.Products with
  | none => simp [placeOrderHandler_of_pass s order hf]
  | some r =>
    obtain ⟨i, e⟩ := r
    simp [placeOrderHandler_of_fail s order i e hf]

theorem placeOrderHandler_error_iff (s : State) (order : Order) (e : Failure) :
    (placeOrderHandler s order).1 = .error e ↔
      ∃ i, firstFailure s.ProductCatalog order.Products = some (i, e) := by
  cases hf : firstFailure s.ProductCatalog order.Products with
  | none => simp [placeOrderHandler_of_pass s order hf]
  | some r =>
    obtain ⟨i, e'⟩ := r
    simp [placeOrderHandler_of_fail s order i e' hf]

/-! ## Properties of `placeOrderHandler` -/

/-- C1, on the code: a request whose second line names an unknown product is answered
with `NotFound` and no order is stored, yet the decrement of its first line stays in the
catalog: product 1 is left with 5 of its 10 units, so the catalog after the failed call
differs from the catalog before it. -/
theorem placeOrder_failure_keeps_earlier_decrement :
    (placeOrderHandler initState (request [line 1 5, line 7 1])).1 = .error .NotFound ∧
    (placeOrderHandler initState (request [line 1 5, line 7 1])).2.OrderMap
      = initState.OrderMap ∧
    (placeOrderHandler initState (request [line 1 5, line 7 1])).2.ProductCatalog 1
      = some ⟨1, "Product1", "Premium", 100, 5, 0⟩ ∧
    initState.ProductCatalog 1 = some ⟨1, "Product1", "Premium", 100, 10, 0⟩ ∧
    (placeOrderHandler initState (request [line 1 5, line 7 1])).2.ProductCatalog
      ≠ initState.ProductCatalog := by
  have h1 : (placeOrderHandler initState (request [line 1 5, line 7 1])).2.ProductCatalog 1
      = some ⟨1, "Product1", "Premium", 100, 5, 0⟩ := by
    simp [placeOrderHandler, placeOrderLoop, loopBody, loopInit, initState, request, line,
      ProductCatalog, Catalog.set, Catalog.read, wrapInt]
  refine ⟨?_, ?_, h1, ?_, ?_⟩
  · simp [placeOrderHandler, placeOrderLoop, loopBody, loopInit, initState, request, line,
      ProductCatalog, Catalog.set, Catalog.read, wrapInt]
  · simp [placeOrderHandler, placeOrderLoop, loopBody, loopInit, initState, request, line,
      ProductCatalog, Catalog.set, Catalog.read, wrapInt]
  · simp [initState, ProductCatalog]
  · intro h
    rw [h] at h1
    simp [initState, ProductCatalog] at h1

/-- C2, on the code: from the seeded catalog, one request for product 1 with the Go `int`
quantity `-2^63` passes both checks of line 105 (it is neither greater than the stock nor
greater than 10), and the subtraction `10 - (-2^63)` of line 126 wraps around: the call
succeeds and leaves product 1 with the negative Availability `-9223372036854775798`. -/
theorem placeOrder_availability_negative :
    IsGoInt (-9223372036854775808) ∧
    succeeded (placeOrderHandler initState (request [line 1 (-9223372036854775808)])).1
      = true ∧
    ((placeOrderHandler initState
        (request [line 1 (-9223372036854775808)])).2.ProductCatalog 1).map
      Product.Availability = some (-9223372036854775798) ∧
    (-9223372036854775798 : Int) < 0 := by
  refine ⟨by decide, ?_, ?_, by decide⟩
  · simp [placeOrderHandler, placeOrderLoop, loopBody, loopInit, initState, request, line,
      ProductCatalog, Catalog.set, Catalog.read, wrapInt, succeeded]
  · simp [placeOrderHandler, placeOrderLoop, loopBody, loopInit, initState, request, line,
      ProductCatalog, Catalog.set, Catalog.read, wrapInt]

/-- C3: `placeOrderHandler` fails exactly as the in-order validation says.  The response is
the failure `e` iff some line fails with `e` against the catalog as written by the lines
before it while every earlier line passes; it is a success iff no line fails; a line fails
with `NotFound` iff its product is absent and with `InsufficientStock` iff its product is
present and the quantity exceeds the current Availability or 10.  In particular a line of
quantity 11 that is reached and names a present product makes the response
`InsufficientStock`, whatever the stock. -/
theorem placeOrder_fails_as_validation_says (s : State) (order : Order) :
    (∀ e, (placeOrderHandler s order).1 = .error e ↔
      ∃ i p, order.Products[i]? = some p ∧
        lineFailure (commitLines s.ProductCatalog (order.Products.take i)) p = some e ∧
        ∀ j q, j < i → order.Products[j]? = some q →
          lineFailure (commitLines s.ProductCatalog (order.Products.take j)) q = none) ∧
    ((∃ o, (placeOrderHandler s order).1 = .ok o) ↔
      ∀ i p, order.Products[i]? = some p →
        lineFailure (commitLines s.ProductCatalog (order.Products.take i)) p = none) ∧
    (∀ (c : Catalog) (p : Product), lineFailure c p = some .NotFound ↔ c p.ID = none) ∧
    (∀ (c : Catalog) (p : Product), lineFailure c p = some .InsufficientStock ↔
      ∃ product, c p.ID = some product ∧
        (p.Quantity > product.Availability ∨ p.Quantity > 10)) ∧
    (∀ i p product, order.Products[i]? = some p → p.Quantity = 11 →
      commitLines s.ProductCatalog (order.Products.take i) p.ID = some product →
      (∀ j q, j < i → order.Products[j]? = some q →
        lineFailure (commitLines s.ProductCatalog (order.Products.take j)) q = none) →
      (placeOrderHandler s order).1 = .error .InsufficientStock) := by
  have hNF : ∀ (c : Catalog) (p : Product),
      lineFailure c p = some .NotFound ↔ c p.ID = none := by
    intro c p
    unfold lineFailure
    cases hc : c p.ID with
    | none => simp
    | some product =>
      by_cases hq : product.Availability < p.Quantity ∨ 10 < p.Quantity <;> simp [hq]
  have hIS : ∀ (c : Catalog) (p : Product), lineFailure c p = some .InsufficientStock ↔
      ∃ product, c p.ID = some product ∧
        (p.Quantity > product.Availability ∨ p.Quantity > 10) := by
    intro c p
    unfold lineFailure
    cases hc : c p.ID with
    | none => simp
    | some product =>
      by_cases hq : product.Availability < p.Quantity ∨ 10 < p.Quantity <;> simp [hq]
  have hErr : ∀ e, (placeOrderHandler s order).1 = .error e ↔
      ∃ i p, order.Products[i]? = some p ∧
        lineFailure (commitLines s.ProductCatalog (order.Products.take i)) p = some e ∧
        ∀ j q, j < i → order.Products[j]? = some q →
          lineFailure (commitLines s.ProductCatalog (order.Products.take j)) q = none := by
    intro e
    rw [placeOrderHandler_error_iff]
    constructor
    · rintro ⟨i, hi⟩
      obtain ⟨⟨p, hp, hl⟩, hall⟩ := (firstFailure_eq_some_iff _ _ i e).1 hi
      exact ⟨i, p, hp, hl, hall⟩
    · rintro ⟨i, p, hp, hl, hall⟩
      exact ⟨i, (firstFailure_eq_some_iff _ _ i e).2 ⟨⟨p, hp, hl⟩, hall⟩⟩
  refine ⟨hErr, ?_, hNF, hIS, ?_⟩
  · rw [placeOrderHandler_ok_iff, firstFailure_eq_none_iff]
  · intro i p product hp hq hc hall
    refine (hErr _).2 ⟨i, p, hp, (hIS _ _).2 ⟨product, hc, Or.inr ?_⟩, hall⟩
    rw [hq]; decide

/-- C3, at the scenario of the specification: against the seeded product 1 (10 in stock) a
request of quantity 11 is answered `InsufficientStock`. -/
theorem placeOrder_fails_as_validation_says_witness :
    (placeOrderHandler initState (request [line 1 11])).1 = .error .InsufficientStock :=
  (placeOrder_fails_as_validation_says initState (request [line 1 11])).2.2.2.2
    0 (line 1 11) ⟨1, "Product1", "Premium", 100, 10, 0⟩ (by simp [request])
    (by simp [line]) (by simp [request, commitLines, initState, ProductCatalog, line])
    (by intro j q hj; omega)

/-- C4, on the code: against the seeded product 2 (20 in stock) a request of the Go `int`
quantity `-9223372036854775800` succeeds, and the Availability it leaves is the wrapped
`-9223372036854775796`, not `20 - (-9223372036854775800) = 9223372036854775820`, the
Availability before minus the quantity ordered. -/
theorem placeOrder_decrement_wraps :
    IsGoInt (-9223372036854775800) ∧
    succeeded (placeOrderHandler initState (request [line 2 (-9223372036854775800)])).1
      = true ∧
    (initState.ProductCatalog 2).map Product.Availability = some 20 ∧
    ((placeOrderHandler initState
        (request [line 2 (-9223372036854775800)])).2.ProductCatalog 2).map
      Product.Availability = some (-9223372036854775796) ∧
    (-9223372036854775796 : Int) ≠ 20 - ([-9223372036854775800] : List Int).sum := by
  refine ⟨by decide, ?_, ?_, ?_, by decide⟩
  · simp [placeOrderHandler, placeOrderLoop, loopBody, loopInit, initState, request, line,
      ProductCatalog, Catalog.set, Catalog.read, wrapInt, succeeded]
  · simp [initState, ProductCatalog]
  · simp [placeOrderHandler, placeOrderLoop, loopBody, loopInit, initState, request, line,
      ProductCatalog, Catalog.set, Catalog.read, wrapInt]

theorem snapshots_length (c : Catalog) (ps : List Product) :
    (snapshots c ps).length = ps.length := by
  induction ps generalizing c with
  | nil => rfl
  | cons p ps ih => simp [snapshots, ih]

theorem snapshots_getElem? (c : Catalog) (ps : List Product) (i : Nat) (p : Product)
    (h : ps[i]? = some p) :
    (snapshots c ps)[i]? = some ((commitLines c (ps.take (i + 1))).read p.ID) := by
  induction ps generalizing c i with
  | nil => simp at h
  | cons q ps ih =>
    cases i with
    | zero =>
      simp only [List.getElem?_cons_zero, Option.some.injEq] at h
      subst h
      simp [snapshots, commitLines]
    | succ i =>
      simp only [List.getElem?_cons_succ] at h
      simpa [snapshots, commitLines] using ih (commitLine c q) i h

/-- C5: a successful `placeOrderHandler`, on an order map whose keys are `1 .. len` with
every order under its own ID, adds exactly one entry and touches no other.  The assigned
ID `id = len + 1` was not a key, the map grows by one, every other key reads as before,
and the entry under `id` has `ID = id`, status "Placed", the zero `DispatchDate`, the
total computed by the loop as its `OrderValue`, and as `Products` one catalog snapshot per
request line, in request order, each read right after that line's decrement. -/
theorem placeOrder_adds_one_entry (s : State) (order o : Order)
    (hinv : LedgerInv s.OrderMap) (h : (placeOrderHandler s order).1 = .ok o) :
    o.ID = (s.OrderMap.len : Int) + 1 ∧
    s.OrderMap.get o.ID = none ∧
    (placeOrderHandler s order).2.OrderMap.len = s.OrderMap.len + 1 ∧
    (∀ k, k ≠ o.ID → (placeOrderHandler s order).2.OrderMap.get k = s.OrderMap.get k) ∧
    ∃ stored, (placeOrderHandler s order).2.OrderMap.get o.ID = some stored ∧
      stored.ID = o.ID ∧ stored.OrderStatus = "Placed" ∧ stored.DispatchDate = 0 ∧
      stored.OrderValue =
        (placeOrderLoop order.Products (loopInit s.ProductCatalog)).2.orderValue ∧
      stored.Products.length = order.Products.length ∧
      ∀ i p, order.Products[i]? = some p →
        stored.Products[i]? =
          some ((commitLines s.ProductCatalog (order.Products.take (i + 1))).read p.ID) := by
  have hf : firstFailure s.ProductCatalog order.Products = none :=
    (placeOrderHandler_ok_iff s order).1 ⟨o, h⟩
  have hfresh : s.OrderMap.get ((s.OrderMap.len : Int) + 1) = none := by
    cases hg : s.OrderMap.get ((s.OrderMap.len : Int) + 1) with
    | none => rfl
    | some x =>
      have := (hinv.1 ((s.OrderMap.len : Int) + 1)).1 (by simp [hg])
      omega
  have hloop := placeOrderLoop_of_pass order.Products (loopInit s.ProductCatalog) hf
  rw [placeOrderHandler_of_pass s order hf] at h ⊢
  simp only [Except.ok.injEq] at h
  subst h
  refine ⟨rfl, hfresh, Ledger.len_set_absent _ _ _ hfresh, ?_, ?_⟩
  · intro k hk
    exact Ledger.get_set_other _ _ _ _ hk
  · refine ⟨_, Ledger.get_set_same _ _ _, rfl, rfl, rfl, ?_, ?_, ?_⟩
    · rw [hloop]; rfl
    · exact snapshots_length _ _
    · intro i p hp
      exact snapshots_getElem? _ _ i p hp

/-- C5, on the first order of the process: product 1 at quantity 5 against the seeded
catalog and the empty order map. -/
theorem placeOrder_adds_one_entry_witness :
    ((placeOrderHandler initState (request [line 1 5])).2.OrderMap.len
      = initState.OrderMap.len + 1) :=
  (placeOrder_adds_one_entry initState (request [line 1 5])
    ⟨1, [⟨1, "Product1", "Premium", 100, 5, 0⟩], 500, 0, "Placed"⟩
    (by
      constructor
      · intro k
        simp [initState, Ledger.empty, Ledger.get, lookupEntries, Ledger.len]
        omega
      · intro k o
        simp [initState, Ledger.empty, Ledger.get, lookupEntries])
    (by
      simp [placeOrderHandler, placeOrderLoop, loopBody, loopInit, initState, request, line,
        ProductCatalog, Catalog.set, Catalog.read, wrapInt, Ledger.len, Ledger.empty]
      norm_num)).2.2.1

/-- C6, on the code: a request that carries a `dispatch_date` (here the clock reading 7)
is answered with an order that still has that `DispatchDate`, while the entry stored under
the assigned ID has the zero `DispatchDate`: the returned order is not the stored one. -/
theorem placeOrder_response_differs_from_stored :
    (placeOrderHandler initState ⟨0, [line 1 1], 0, 7, ""⟩).1
      = .ok ⟨1, [⟨1, "Product1", "Premium", 100, 9, 0⟩], 100, 7, "Placed"⟩ ∧
    (placeOrderHandler initState ⟨0, [line 1 1], 0, 7, ""⟩).2.OrderMap.get 1
      = some ⟨1, [⟨1, "Product1", "Premium", 100, 9, 0⟩], 100, 0, "Placed"⟩ ∧
    (⟨1, [⟨1, "Product1", "Premium", 100, 9, 0⟩], 100, 7, "Placed"⟩ : Order)
      ≠ ⟨1, [⟨1, "Product1", "Premium", 100, 9, 0⟩], 100, 0, "Placed"⟩ := by
  refine ⟨?_, ?_, ?_⟩
  · simp [placeOrderHandler, placeOrderLoop, loopBody, loopInit, initState, line,
      ProductCatalog, Catalog.set, Catalog.read, wrapInt, Ledger.len, Ledger.empty]
  · simp [placeOrderHandler, placeOrderLoop, loopBody, loopInit, initState, line,
      ProductCatalog, Catalog.set, Catalog.read, wrapInt, Ledger.len, Ledger.empty,
      Ledger.get, Ledger.set, assignEntries, lookupEntries]
  · simp

/-! ### The order map across requests -/

theorem ledgerInv_empty : LedgerInv Ledger.empty := by
  constructor
  · intro k
    simp [Ledger.empty, Ledger.get, lookupEntries, Ledger.len]
    omega
  · intro k o
    simp [Ledger.empty, Ledger.get, lookupEntries]

theorem ledgerInv_fresh (m : Ledger) (h : LedgerInv m) : m.get ((m.len : Int) + 1) = none := by
  cases hg : m.get ((m.len : Int) + 1) with
  | none => rfl
  | some x =>
    have := (h.1 ((m.len : Int) + 1)).1 (by simp [hg])
    omega

theorem ledgerInv_set_new (m : Ledger) (h : LedgerInv m) (v : Order)
    (hv : v.ID = (m.len : Int) + 1) : LedgerInv (m.set ((m.len : Int) + 1) v) := by
  have hlen := Ledger.len_set_absent m _ v (ledgerInv_fresh m h)
  constructor
  · intro k
    by_cases hk : k = (m.len : Int) + 1
    · subst hk
      simp only [Ledger.get_set_same, Option.isSome_some, hlen, true_iff]
      push_cast
      omega
    · rw [Ledger.get_set_other _ _ _ _ hk, h.1 k, hlen]
      push_cast
      omega
  · intro k o hget
    by_cases hk : k = (m.len : Int) + 1
    · subst hk
      rw [Ledger.get_set_same] at hget
      cases hget
      exact hv
    · rw [Ledger.get_set_other _ _ _ _ hk] at hget
      exact h.2 k o hget

theorem ledgerInv_set_present (m : Ledger) (h : LedgerInv m) (k : Int) (v : Order)
    (hk : (m.get k).isSome) (hv : v.ID = k) : LedgerInv (m.set k v) := by
  have hlen := Ledger.len_set_present m k v hk
  constructor
  · intro i
    by_cases hi : i = k
    · subst hi
      simp only [Ledger.get_set_same, Option.isSome_some, hlen, true_iff]
      exact (h.1 i).1 hk
    · rw [Ledger.get_set_other _ _ _ _ hi, h.1 i, hlen]
  · intro i o hget
    by_cases hi : i = k
    · subst hi
      rw [Ledger.get_set_same] at hget
      cases hget
      exact hv
    · rw [Ledger.get_set_other _ _ _ _ hi] at hget
      exact h.2 i o hget

theorem placeOrderHandler_ledger (s : State) (order : Order) (h : LedgerInv s.OrderMap) :
    LedgerInv (placeOrderHandler s order).2.OrderMap ∧
      (placeOrderHandler s order).2.OrderMap.len =
        s.OrderMap.len + (if succeeded (placeOrderHandler s order).1 then 1 else 0) := by
  cases hf : firstFailure s.ProductCatalog order.Products with
  | none =>
    rw [placeOrderHandler_of_pass s order hf]
    exact ⟨ledgerInv_set_new _ h _ rfl,
      by simpa [succeeded] using Ledger.len_set_absent _ _ _ (ledgerInv_fresh _ h)⟩
  | some r =>
    obtain ⟨i, e⟩ := r
    rw [placeOrderHandler_of_fail s order i e hf]
    exact ⟨h, by simp [succeeded]⟩

theorem updateOrderStatusHandler_ledger (s : State) (o : Order) (now : Time)
    (h : LedgerInv s.OrderMap) :
    LedgerInv (updateOrderStatusHandler s o now).2.OrderMap ∧
      (updateOrderStatusHandler s o now).2.OrderMap.len = s.OrderMap.len := by
  unfold updateOrderStatusHandler
  cases hg : s.OrderMap.get o.ID with
  | none => exact ⟨h, rfl⟩
  | some order =>
    have hid : order.ID = o.ID := h.2 _ _ hg
    have hsome : (s.OrderMap.get order.ID).isSome := by rw [hid, hg]; rfl
    by_cases hd : o.OrderStatus = "Dispatched"
    · simp only [hd, if_true]
      exact ⟨ledgerInv_set_present _ h _ _ hsome rfl, Ledger.len_set_present _ _ _ hsome⟩
    · simp only [hd, if_false]
      exact ⟨ledgerInv_set_present _ h _ _ hsome rfl, Ledger.len_set_present _ _ _ hsome⟩

theorem run_ledger (s : State) (rs : List Request) (h : LedgerInv s.OrderMap) :
    LedgerInv (run s rs).OrderMap ∧
      (run s rs).OrderMap.len = s.OrderMap.len + placedCount s rs := by
  induction rs generalizing s with
  | nil => exact ⟨h, rfl⟩
  | cons r rs ih =>
    cases r with
    | placeOrder order =>
      obtain ⟨h1, h2⟩ := placeOrderHandler_ledger s order h
      obtain ⟨h3, h4⟩ := ih (placeOrderHandler s order).2 h1
      refine ⟨h3, ?_⟩
      simp only [run, handle, placedCount, h4, h2]
      omega
    | updateOrderStatus o now =>
      obtain ⟨h1, h2⟩ := updateOrderStatusHandler_ledger s o now h
      obtain ⟨h3, h4⟩ := ih (updateOrderStatusHandler s o now).2 h1
      refine ⟨h3, ?_⟩
      simp only [run, handle, placedCount, h4, h2]

theorem placedCount_append (s : State) (rs rs' : List Request) :
    placedCount s (rs ++ rs') = placedCount s rs + placedCount (run s rs) rs' := by
  induction rs generalizing s with
  | nil => simp [placedCount, run]
  | cons r rs ih =>
    cases r with
    | placeOrder order =>
      show (if succeeded (placeOrderHandler s order).1 then 1 else 0)
          + placedCount (placeOrderHandler s order).2 (rs ++ rs') = _
      rw [ih]
      simp only [placedCount, run, handle]
      omega
    | updateOrderStatus o now =>
      show placedCount (updateOrderStatusHandler s o now).2 (rs ++ rs') = _
      rw [ih]
      simp only [placedCount, run, handle]

/-- C7: order IDs are unique and strictly increasing.  After any sequence of `placeOrder`
and `updateOrderStatus` requests served from the empty order map (and any catalog), the
keys of the order map are exactly `1 .. n`, `n` being the number of `placeOrder` requests
answered with success so far, and every stored order has its key as `ID`; a further
successful `placeOrder` is assigned `n + 1`, which is not yet a key and is greater than
every key, and it leaves every other entry as it was. -/
theorem order_ids_are_one_to_n (c : Catalog) (rs : List Request) :
    (∀ k, ((run ⟨c, Ledger.empty⟩ rs).OrderMap.get k).isSome ↔
      1 ≤ k ∧ k ≤ (placedCount ⟨c, Ledger.empty⟩ rs : Int)) ∧
    (∀ k o, (run ⟨c, Ledger.empty⟩ rs).OrderMap.get k = some o → o.ID = k) ∧
    (∀ order o, (placeOrderHandler (run ⟨c, Ledger.empty⟩ rs) order).1 = .ok o →
      o.ID = (placedCount ⟨c, Ledger.empty⟩ rs : Int) + 1 ∧
      (run ⟨c, Ledger.empty⟩ rs).OrderMap.get o.ID = none ∧
      (∀ k, ((run ⟨c, Ledger.empty⟩ rs).OrderMap.get k).isSome → k < o.ID) ∧
      (∀ k, k ≠ o.ID →
        (placeOrderHandler (run ⟨c, Ledger.empty⟩ rs) order).2.OrderMap.get k
          = (run ⟨c, Ledger.empty⟩ rs).OrderMap.get k) ∧
      placedCount ⟨c, Ledger.empty⟩ (rs ++ [.placeOrder order])
        = placedCount ⟨c, Ledger.empty⟩ rs + 1) := by
  obtain ⟨hinv, hlen⟩ := run_ledger ⟨c, Ledger.empty⟩ rs ledgerInv_empty
  have hlen' : (run ⟨c, Ledger.empty⟩ rs).OrderMap.len = placedCount ⟨c, Ledger.empty⟩ rs := by
    simpa [Ledger.empty, Ledger.len] using hlen
  refine ⟨?_, hinv.2, ?_⟩
  · intro k
    rw [hinv.1 k, hlen']
  · intro order o h
    have hf := (placeOrderHandler_ok_iff _ order).1 ⟨o, h⟩
    have hid : o.ID = (placedCount ⟨c, Ledger.empty⟩ rs : Int) + 1 := by
      rw [placeOrderHandler_of_pass _ order hf] at h
      simp only [Except.ok.injEq] at h
      rw [← h, hlen']
    have hfresh := ledgerInv_fresh _ hinv
    rw [hlen'] at hfresh
    refine ⟨hid, by rw [hid]; exact hfresh, ?_, ?_, ?_⟩
    · intro k hk
      have := (hinv.1 k).1 hk
      rw [hlen'] at this
      omega
    · intro k hk
      rw [placeOrderHandler_of_pass _ order hf, hlen', ← hid]
      exact Ledger.get_set_other _ _ _ _ hk
    · rw [placedCount_append]
      simp [placedCount, h, succeeded]

/-- C7, on one order: after the first successful `placeOrder` the key 1 is present. -/
theorem order_ids_are_one_to_n_witness :
    ((run ⟨ProductCatalog, Ledger.empty⟩
      [.placeOrder (request [line 1 5])]).OrderMap.get 1).isSome = true :=
  ((order_ids_are_one_to_n ProductCatalog [.placeOrder (request [line 1 5])]).1 1).2
    ⟨by decide, by
      simp [placedCount, succeeded, placeOrderHandler, placeOrderLoop, loopBody, loopInit,
        request, line, ProductCatalog, Catalog.set, Catalog.read, wrapInt]⟩

/-! ### Pricing -/

theorem priceFrom_of_few (c : Catalog) (ps : List Product) (n : Nat) (t : ℚ)
    (h : n + premiumLines c ps < 3) : priceFrom c n t ps = t + plainSum c ps := by
  induction ps generalizing n t with
  | nil => simp [priceFrom, plainSum]
  | cons p ps ih =>
    have hcount : premiumLines c (p :: ps)
        = (if isPremiumLine c p then 1 else 0) + premiumLines c ps := by
      cases hp : isPremiumLine c p
      · simp [premiumLines, List.filter_cons, hp]
      · simp [premiumLines, List.filter_cons, hp]
        omega
    rw [hcount] at h
    have h3 : ¬ 3 ≤ n + (if isPremiumLine c p then 1 else 0) := by omega
    simp only [priceFrom, h3, and_false, if_false]
    rw [ih _ _ (by omega)]
    simp [plainSum, add_assoc]

/-- C8: no discount below three premium lines.  When `placeOrderHandler` succeeds on a
request in which fewer than 3 lines resolve to a "Premium" product, the `OrderValue` of the
returned order is the plain sum of `price * quantity` over the lines. -/
theorem placeOrder_no_discount_below_three (s : State) (order o : Order)
    (h : (placeOrderHandler s order).1 = .ok o)
    (hp : premiumLines s.ProductCatalog order.Products < 3) :
    o.OrderValue = plainSum s.ProductCatalog order.Products := by
  have hf := (placeOrderHandler_ok_iff s order).1 ⟨o, h⟩
  rw [placeOrderHandler_of_pass s order hf] at h
  simp only [Except.ok.injEq] at h
  subst h
  simpa using priceFrom_of_few s.ProductCatalog order.Products 0 0 (by omega)

/-- C8, at the scenario of the specification: product 1 (price 100) at quantity 5 is
charged 500. -/
theorem placeOrder_no_discount_below_three_witness :
    (placeOrderHandler initState (request [line 1 5])).1
      = .ok ⟨1, [⟨1, "Product1", "Premium", 100, 5, 0⟩], 500, 0, "Placed"⟩ ∧
    premiumLines initState.ProductCatalog (request [line 1 5]).Products < 3 ∧
    (500 : ℚ) = plainSum initState.ProductCatalog (request [line 1 5]).Products :=
  have h : (placeOrderHandler initState (request [line 1 5])).1
      = .ok ⟨1, [⟨1, "Product1", "Premium", 100, 5, 0⟩], 500, 0, "Placed"⟩ := by
    simp [placeOrderHandler, placeOrderLoop, loopBody, loopInit, initState, request, line,
      ProductCatalog, Catalog.set, Catalog.read, wrapInt, Ledger.len, Ledger.empty]
    norm_num
  have hp : premiumLines initState.ProductCatalog (request [line 1 5]).Products < 3 := by
    simp only [premiumLines, request, List.filter_cons, List.filter_nil]
    split <;> simp
  ⟨h, hp, placeOrder_no_discount_below_three initState (request [line 1 5]) _ h hp⟩

/-- C9, as stated, fails on the code: three "Premium" lines (products 1, 4, 5) followed by
a "Regular" one (product 2), each at quantity 1, are charged `(100 + 100 + 90) * 0.9 + 150
= 411`, whereas the fold that also reduces after the fourth line gives
`((100 + 100 + 90) * 0.9 + 150) * 0.9 = 369.9`. -/
theorem placeOrder_value_not_every_line_fold :
    ∃ o, (placeOrderHandler initState (request [line 1 1, line 4 1, line 5 1, line 2 1])).1
        = .ok o ∧
      o.OrderValue = 411 ∧
      priceEveryLineFrom initState.ProductCatalog 0 0
        (request [line 1 1, line 4 1, line 5 1, line 2 1]).Products = 3699 / 10 ∧
      o.OrderValue ≠ priceEveryLineFrom initState.ProductCatalog 0 0
        (request [line 1 1, line 4 1, line 5 1, line 2 1]).Products := by
  have hv : priceEveryLineFrom initState.ProductCatalog 0 0
      (request [line 1 1, line 4 1, line 5 1, line 2 1]).Products = 3699 / 10 := by
    simp [priceEveryLineFrom, lineAmount, isPremiumLine, initState, request, line,
      ProductCatalog, Catalog.read]
    norm_num
  refine ⟨⟨1, [⟨1, "Product1", "Premium", 100, 9, 0⟩, ⟨4, "Product4", "Premium", 100, 49, 0⟩,
    ⟨5, "Product5", "Premium", 90, 24, 0⟩, ⟨2, "Product2", "Regular", 150, 19, 0⟩],
    411, 0, "Placed"⟩, ?_, rfl, hv, ?_⟩
  · simp [placeOrderHandler, placeOrderLoop, loopBody, loopInit, initState, request, line,
      ProductCatalog, Catalog.set, Catalog.read, wrapInt, Ledger.len, Ledger.empty]
    norm_num
  · rw [hv]; norm_num

/-- C9, amended: the `OrderValue` of a successful `placeOrderHandler` is the result of the
fold over the lines in input order that, for each line, adds `price * quantity` to the
running total and then, only if the line is "Premium" and the number of "Premium" lines
seen so far (this line included) is at least 3, multiplies the whole running total by
0.9. -/
theorem placeOrder_value_is_threshold_fold (s : State) (order o : Order)
    (h : (placeOrderHandler s order).1 = .ok o) :
    o.OrderValue = priceFrom s.ProductCatalog 0 0 order.Products := by
  have hf := (placeOrderHandler_ok_iff s order).1 ⟨o, h⟩
  rw [placeOrderHandler_of_pass s order hf] at h
  simp only [Except.ok.injEq] at h
  subst h
  rfl

/-- C9, amended, on three "Premium" lines followed by a "Regular" one: the charge is 411. -/
theorem placeOrder_value_is_threshold_fold_witness :
    (411 : ℚ) = priceFrom initState.ProductCatalog 0 0
      (request [line 1 1, line 4 1, line 5 1, line 2 1]).Products :=
  placeOrder_value_is_threshold_fold initState
    (request [line 1 1, line 4 1, line 5 1, line 2 1])
    ⟨1, [⟨1, "Product1", "Premium", 100, 9, 0⟩, ⟨4, "Product4", "Premium", 100, 49, 0⟩,
      ⟨5, "Product5", "Premium", 90, 24, 0⟩, ⟨2, "Product2", "Regular", 150, 19, 0⟩],
      411, 0, "Placed"⟩
    (by
      simp [placeOrderHandler, placeOrderLoop, loopBody, loopInit, initState, request, line,
        ProductCatalog, Catalog.set, Catalog.read, wrapInt, Ledger.len, Ledger.empty]
      norm_num)

/-! ### The reductions in closed form -/

theorem premiumLines_cons (c : Catalog) (p : Product) (ps : List Product) :
    premiumLines c (p :: ps) = (if isPremiumLine c p then 1 else 0) + premiumLines c ps := by
  cases hp : isPremiumLine c p
  · simp [premiumLines, List.filter_cons, hp]
  · simp [premiumLines, List.filter_cons, hp]
    omega

theorem discountFlagsFrom_length (c : Catalog) (n : Nat) (ps : List Product) :
    (discountFlagsFrom c n ps).length = ps.length := by
  induction ps generalizing n with
  | nil => rfl
  | cons p ps ih => simp [discountFlagsFrom, ih]

theorem discountFlagsFrom_count (c : Catalog) (n : Nat) (ps : List Product) :
    (discountFlagsFrom c n ps).count true = (n + premiumLines c ps - 2) - (n - 2) := by
  induction ps generalizing n with
  | nil => simp [discountFlagsFrom, premiumLines]
  | cons p ps ih =>
    rw [discountFlagsFrom, List.count_cons, ih, premiumLines_cons]
    cases hp : isPremiumLine c p
    · simp
    · by_cases h3 : 3 ≤ n + 1
      · simp [h3]; omega
      · simp [h3]; omega

theorem discountFlagsFrom_getElem? (c : Catalog) (n : Nat) (ps : List Product) (j : Nat) :
    (discountFlagsFrom c n ps)[j]? = ps[j]?.map (fun p =>
      isPremiumLine c p && decide (3 ≤ n + premiumLines c (ps.take (j + 1)))) := by
  induction ps generalizing n j with
  | nil => simp [discountFlagsFrom]
  | cons p ps ih =>
    cases j with
    | zero =>
      cases hp : isPremiumLine c p <;> simp [discountFlagsFrom, premiumLines, hp]
    | succ j =>
      simp only [discountFlagsFrom, List.getElem?_cons_succ, ih, List.take_succ_cons,
        premiumLines_cons, Nat.add_assoc]

theorem discountFlagsFrom_zero (c : Catalog) (ps : List Product) :
    discountFlagsFrom c 0 ps = (List.range ps.length).map (reducesAfter c ps) := by
  apply List.ext_getElem?
  intro j
  rw [discountFlagsFrom_getElem?]
  by_cases hj : j < ps.length
  · simp [List.getElem?_eq_getElem hj, reducesAfter, List.getElem?_range hj]
  · have h1 : ps[j]? = none := List.getElem?_eq_none (Nat.le_of_not_lt hj)
    have h2 : (List.range ps.length)[j]? = none :=
      List.getElem?_eq_none (by simpa using Nat.le_of_not_lt hj)
    simp [h1, h2]

theorem priceFrom_closed (c : Catalog) (ps : List Product) (n : Nat) (t : ℚ) :
    priceFrom c n t ps = t * (9 / 10) ^ ((discountFlagsFrom c n ps).count true)
      + ∑ i in Finset.range ps.length, lineAmount c (ps.getD i Product.zero)
          * (9 / 10) ^ (((discountFlagsFrom c n ps).drop i).count true) := by
  induction ps generalizing n t with
  | nil => simp [priceFrom, discountFlagsFrom]
  | cons p ps ih =>
    rw [priceFrom, ih, List.length_cons, Finset.sum_range_succ']
    simp only [discountFlagsFrom, List.getD_cons_succ, List.drop_succ_cons, List.drop_zero,
      List.getD_cons_zero, List.count_cons]
    cases hp : isPremiumLine c p
    · simp
      ring
    · by_cases h3 : 3 ≤ n + 1
      · simp [h3, pow_succ]
        ring
      · simp [h3]
        ring

/-- C10: the discount compounds once per premium line from the third on.  For a successful
`placeOrderHandler`, the 10% reduction of the running total is applied right after the
lines that are "Premium" and are the third or a later "Premium" line (`reducesAfter`), and
after no other: the amount of line `i` ends up multiplied by 0.9 once for each such line
of index `i` or more.  With `P` premium lines there are `P - 2` such lines (none when
`P < 3`).  So three premium lines alone cost `0.9 * (a1 + a2 + a3)` and four premium lines
alone cost `((a1 + a2 + a3) * 0.9 + a4) * 0.9`. -/
theorem placeOrder_discount_compounds (s : State) (order o : Order)
    (h : (placeOrderHandler s order).1 = .ok o) :
    o.OrderValue = ∑ i in Finset.range order.Products.length,
        lineAmount s.ProductCatalog (order.Products.getD i Product.zero)
          * (9 / 10) ^ reductionsFrom s.ProductCatalog order.Products i ∧
    reductionsFrom s.ProductCatalog order.Products 0
      = premiumLines s.ProductCatalog order.Products - 2 ∧
    (∀ p1 p2 p3, order.Products = [p1, p2, p3] →
      isPremiumLine s.ProductCatalog p1 = true → isPremiumLine s.ProductCatalog p2 = true →
      isPremiumLine s.ProductCatalog p3 = true →
      o.OrderValue = 9 / 10 * plainSum s.ProductCatalog order.Products) ∧
    (∀ p1 p2 p3 p4, order.Products = [p1, p2, p3, p4] →
      isPremiumLine s.ProductCatalog p1 = true → isPremiumLine s.ProductCatalog p2 = true →
      isPremiumLine s.ProductCatalog p3 = true → isPremiumLine s.ProductCatalog p4 = true →
      o.OrderValue =
        ((lineAmount s.ProductCatalog p1 + lineAmount s.ProductCatalog p2
            + lineAmount s.ProductCatalog p3) * (9 / 10)
          + lineAmount s.ProductCatalog p4) * (9 / 10)) := by
  have hf := (placeOrderHandler_ok_iff s order).1 ⟨o, h⟩
  rw [placeOrderHandler_of_pass s order hf] at h
  simp only [Except.ok.injEq] at h
  subst h
  refine ⟨?_, ?_, ?_, ?_⟩
  · show priceFrom s.ProductCatalog 0 0 order.Products = _
    rw [priceFrom_closed, discountFlagsFrom_zero]
    simp [reductionsFrom]
  · simp only [reductionsFrom, List.drop_zero, ← discountFlagsFrom_zero,
      discountFlagsFrom_count]
    omega
  · intro p1 p2 p3 hps h1 h2 h3
    show priceFrom s.ProductCatalog 0 0 order.Products = _
    rw [hps]
    simp [priceFrom, plainSum, h1, h2, h3]
    ring
  · intro p1 p2 p3 p4 hps h1 h2 h3 h4
    show priceFrom s.ProductCatalog 0 0 order.Products = _
    rw [hps]
    simp [priceFrom, h1, h2, h3, h4]

/-- C10, at the scenario of the specification: the three premium products 1, 4 and 5 at
quantity 1, of prices 100, 100 and 90, sum to 290 and are charged 261. -/
theorem placeOrder_discount_compounds_witness :
    plainSum initState.ProductCatalog (request [line 1 1, line 4 1, line 5 1]).Products = 290 ∧
    (261 : ℚ) = 9 / 10 *
      plainSum initState.ProductCatalog (request [line 1 1, line 4 1, line 5 1]).Products :=
  ⟨by
    simp [plainSum, lineAmount, initState, request, line, ProductCatalog, Catalog.read]
    norm_num,
   (placeOrder_discount_compounds initState (request [line 1 1, line 4 1, line 5 1])
    ⟨1, [⟨1, "Product1", "Premium", 100, 9, 0⟩, ⟨4, "Product4", "Premium", 100, 49, 0⟩,
      ⟨5, "Product5", "Premium", 90, 24, 0⟩], 261, 0, "Placed"⟩
    (by
      simp [placeOrderHandler, placeOrderLoop, loopBody, loopInit, initState, request, line,
        ProductCatalog, Catalog.set, Catalog.read, wrapInt, Ledger.len, Ledger.empty]
      norm_num)).2.2.1 (line 1 1) (line 4 1) (line 5 1) rfl
    (by simp [isPremiumLine, initState, line, ProductCatalog, Catalog.read])
    (by simp [isPremiumLine, initState, line, ProductCatalog, Catalog.read])
    (by simp [isPremiumLine, initState, line, ProductCatalog, Catalog.read])⟩

/-! ### Requests whose quantities are not negative

The two results below bound the reach of the missing lower bound on `Quantity`: when no
line has a negative quantity the subtraction of line 126 never wraps, the stock stays
non-negative and a successful call takes exactly what was ordered. -/

theorem wrapInt_of_isGoInt (x : Int) (h : IsGoInt x) : wrapInt x = x := by
  unfold IsGoInt at h
  unfold wrapInt
  have h1 : 0 ≤ x + 2 ^ 63 := by omega
  have h2 : x + 2 ^ 63 < 2 ^ 64 := by omega
  rw [Int.emod_eq_of_lt h1 h2]
  omega

theorem commitLine_stock (c : Catalog) (p : Product) (hc : StockInRange c)
    (hf : lineFailure c p = none) (hq : 0 ≤ p.Quantity) :
    StockInRange (commitLine c p) ∧
      ∀ k, (commitLine c p k).map Product.Availability =
        (c k).map (fun x => x.Availability - (if p.ID = k then p.Quantity else 0)) := by
  unfold lineFailure at hf
  cases hp : c p.ID with
  | none => simp [hp] at hf
  | some product =>
    simp only [hp] at hf
    have hle : ¬ (product.Availability < p.Quantity ∨ 10 < p.Quantity) := by
      intro hh; simp [hh] at hf
    obtain ⟨h0, hr⟩ := hc _ _ hp
    have hin : IsGoInt (product.Availability - p.Quantity) := by
      unfold IsGoInt at hr ⊢
      omega
    have hw := wrapInt_of_isGoInt _ hin
    constructor
    · intro k x hx
      by_cases hk : k = p.ID
      · subst hk
        simp only [commitLine, hp, Catalog.set_same, Option.some.injEq] at hx
        subst hx
        simp only [hw]
        exact ⟨by omega, hin⟩
      · rw [commitLine_other c p k hk] at hx
        exact hc k x hx
    · intro k
      by_cases hk : k = p.ID
      · subst hk
        simp [commitLine, hp, Catalog.set_same, hw]
      · rw [commitLine_other c p k hk]
        have hk' : ¬ p.ID = k := fun h => hk h.symm
        simp [hk']

theorem orderedOf_cons (p : Product) (ps : List Product) (k : Int) :
    orderedOf (p :: ps) k = (if p.ID = k then p.Quantity else 0) + orderedOf ps k := by
  by_cases h : p.ID = k <;> simp [orderedOf, List.filter_cons, h]

theorem commitLines_fields (c : Catalog) (ps : List Product) (k : Int) :
    (commitLines c ps k).map (fun x => (x.ID, x.Name, x.Category, x.Price)) =
      (c k).map (fun x => (x.ID, x.Name, x.Category, x.Price)) := by
  induction ps generalizing c with
  | nil => rfl
  | cons p ps ih =>
    simp only [commitLines, List.foldl_cons] at ih ⊢
    rw [ih, commitLine_fields]

theorem commitLines_stock (c : Catalog) (ps : List Product) (hc : StockInRange c)
    (hf : firstFailure c ps = none) (hq : ∀ p ∈ ps, 0 ≤ p.Quantity) (k : Int) :
    (commitLines c ps k).map Product.Availability =
      (c k).map (fun x => x.Availability - orderedOf ps k) := by
  induction ps generalizing c with
  | nil => simp [commitLines, orderedOf]
  | cons p ps ih =>
    cases hl : lineFailure c p with
    | some e => simp [firstFailure, hl] at hf
    | none =>
      have hf' : firstFailure (commitLine c p) ps = none := by
        simpa [firstFailure, hl] using hf
      obtain ⟨hc', hav⟩ := commitLine_stock c p hc hl (hq p (List.mem_cons_self _ _))
      have ih1 := ih (commitLine c p) hc' hf' (fun q hq' => hq q (List.mem_cons_of_mem _ hq'))
      simp only [commitLines, List.foldl_cons] at ih1 ⊢
      rw [ih1]
      have := hav k
      cases h1 : commitLine c p k <;> cases h2 : c k <;>
        simp [h1, h2] at this ⊢
      rw [orderedOf_cons, this]
      ring

/-- Exact decrement without negative quantities: on a catalog of non-negative Go `int` stocks, a successful
`placeOrderHandler` whose lines have no negative quantity leaves every product with its
Availability before the call minus the sum of the quantities of the lines naming it;
no product is added or removed, and ID, Name, Category and Price are unchanged. -/
theorem placeOrder_decrements_exactly_of_nonneg (s : State) (order o : Order)
    (h : (placeOrderHandler s order).1 = .ok o) (hc : StockInRange s.ProductCatalog)
    (hq : ∀ p ∈ order.Products, 0 ≤ p.Quantity) (k : Int) :
    ((placeOrderHandler s order).2.ProductCatalog k).map Product.Availability =
        (s.ProductCatalog k).map (fun x => x.Availability - orderedOf order.Products k) ∧
    ((placeOrderHandler s order).2.ProductCatalog k).map
        (fun x => (x.ID, x.Name, x.Category, x.Price)) =
      (s.ProductCatalog k).map (fun x => (x.ID, x.Name, x.Category, x.Price)) := by
  have hf := (placeOrderHandler_ok_iff s order).1 ⟨o, h⟩
  rw [placeOrderHandler_of_pass s order hf]
  exact ⟨commitLines_stock _ _ hc hf hq k, commitLines_fields _ _ k⟩

/-- Stock stays non-negative without negative quantities: on a catalog of non-negative Go `int` stocks, a
`placeOrderHandler` call whose lines have no negative quantity, successful or failed,
leaves a catalog of non-negative Go `int` stocks. -/
theorem placeOrder_stock_nonneg_of_nonneg (s : State) (order : Order)
    (hc : StockInRange s.ProductCatalog) (hq : ∀ p ∈ order.Products, 0 ≤ p.Quantity) :
    StockInRange (placeOrderHandler s order).2.ProductCatalog := by
  have key : ∀ (ps : List Product) (v : LoopVars), StockInRange v.catalog →
      (∀ p ∈ ps, 0 ≤ p.Quantity) → StockInRange (placeOrderLoop ps v).2.catalog := by
    intro ps
    induction ps with
    | nil => intro v hv _; exact hv
    | cons p ps ih =>
      intro v hv hq
      cases hl : lineFailure v.catalog p with
      | some e =>
        simp only [placeOrderLoop, loopBody_of_fail p v e hl]
        exact hv
      | none =>
        simp only [placeOrderLoop, loopBody_of_pass p v hl]
        exact ih _ (commitLine_stock v.catalog p hv hl (hq p (List.mem_cons_self _ _))).1
          (fun q hq' => hq q (List.mem_cons_of_mem _ hq'))
  have := key order.Products (loopInit s.ProductCatalog) hc hq
  unfold placeOrderHandler
  cases hp : placeOrderLoop order.Products (loopInit s.ProductCatalog) with
  | mk r v =>
    rw [hp] at this
    cases r <;> exact this

/-! ## Properties of `updateOrderStatusHandler` -/

theorem updateOrderStatusHandler_of_found (s : State) (o : Order) (now : Time) (order : Order)
    (hget : s.OrderMap.get o.ID = some order) (hid : order.ID = o.ID) :
    updateOrderStatusHandler s o now =
      (.ok { ID := order.ID, Products := order.Products, OrderValue := order.OrderValue,
             DispatchDate := if o.OrderStatus = "Dispatched" then now
               else order.DispatchDate,
             OrderStatus := o.OrderStatus },
       { ProductCatalog := s.ProductCatalog,
         OrderMap := s.OrderMap.set o.ID
           { ID := order.ID, Products := order.Products, OrderValue := order.OrderValue,
             DispatchDate := if o.OrderStatus = "Dispatched" then now
               else order.DispatchDate,
             OrderStatus := o.OrderStatus } }) := by
  unfold updateOrderStatusHandler
  simp only [hget]
  by_cases hd : o.OrderStatus = "Dispatched"
  · simp only [hd, if_true, hid]
  · simp only [hd, if_false, hid]

/-- C11: `updateOrderStatusHandler` on an order ID that is not a key of the order map,
with any new status ("Dispatched" included) and at any time, answers `NotFound` and leaves
the order map and the catalog as they were. -/
theorem updateStatus_unknown_order (s : State) (o : Order) (now : Time)
    (h : s.OrderMap.get o.ID = none) :
    (updateOrderStatusHandler s o now).1 = .error .NotFound ∧
    (updateOrderStatusHandler s o now).2 = s ∧
    (updateOrderStatusHandler s o now).2.OrderMap = s.OrderMap ∧
    (updateOrderStatusHandler s o now).2.ProductCatalog = s.ProductCatalog := by
  unfold updateOrderStatusHandler
  simp [h]

/-- C11, on the empty order map: a "Dispatched" update of order 1 is answered `NotFound`. -/
theorem updateStatus_unknown_order_witness :
    (updateOrderStatusHandler initState ⟨1, [], 0, 0, "Dispatched"⟩ 9).1
      = .error .NotFound :=
  (updateStatus_unknown_order initState ⟨1, [], 0, 0, "Dispatched"⟩ 9
    (by simp [initState, Ledger.empty, Ledger.get, lookupEntries])).1

/-- C12: `updateOrderStatusHandler` on an order `i` of the order map (stored under its own
ID), with any new status and whatever the previous status, succeeds; afterwards the stored
order `i` has the new status and the ID, Products and OrderValue it had, the order map has
the same keys and the same size, every other order is unchanged, the catalog is unchanged,
and the returned order is the stored order `i`. -/
theorem updateStatus_changes_status_only (s : State) (o : Order) (now : Time) (order : Order)
    (hget : s.OrderMap.get o.ID = some order) (hid : order.ID = o.ID) :
    ∃ r, (updateOrderStatusHandler s o now).1 = .ok r ∧
      (updateOrderStatusHandler s o now).2.OrderMap.get o.ID = some r ∧
      r.OrderStatus = o.OrderStatus ∧ r.ID = order.ID ∧ r.Products = order.Products ∧
      r.OrderValue = order.OrderValue ∧
      (∀ k, ((updateOrderStatusHandler s o now).2.OrderMap.get k).isSome
        = (s.OrderMap.get k).isSome) ∧
      (updateOrderStatusHandler s o now).2.OrderMap.len = s.OrderMap.len ∧
      (∀ k, k ≠ o.ID →
        (updateOrderStatusHandler s o now).2.OrderMap.get k = s.OrderMap.get k) ∧
      (updateOrderStatusHandler s o now).2.ProductCatalog = s.ProductCatalog := by
  rw [updateOrderStatusHandler_of_found s o now order hget hid]
  refine ⟨_, rfl, Ledger.get_set_same _ _ _, rfl, rfl, rfl, rfl, ?_, ?_, ?_, rfl⟩
  · intro k
    by_cases hk : k = o.ID
    · subst hk
      simp [Ledger.get_set_same, hget]
    · simp only [Ledger.get_set_other _ _ _ _ hk]
  · exact Ledger.len_set_present _ _ _ (by simp [hget])
  · intro k hk
    exact Ledger.get_set_other _ _ _ _ hk

/-- C12, on an order map holding one placed order: the update of order 1 to "Packed"
returns the order with the new status and nothing else changed. -/
theorem updateStatus_changes_status_only_witness :
    ∃ r, (updateOrderStatusHandler
        ⟨ProductCatalog, ⟨[(1, ⟨1, [], 500, 0, "Placed"⟩)]⟩⟩ ⟨1, [], 0, 0, "Packed"⟩ 9).1
          = .ok r ∧ r.OrderStatus = "Packed" ∧ r.OrderValue = 500 :=
  have h := updateStatus_changes_status_only
    ⟨ProductCatalog, ⟨[(1, ⟨1, [], 500, 0, "Placed"⟩)]⟩⟩ ⟨1, [], 0, 0, "Packed"⟩ 9
    ⟨1, [], 500, 0, "Placed"⟩ (by simp [Ledger.get, lookupEntries]) rfl
  h.elim fun r hr => ⟨r, hr.1, hr.2.2.1, hr.2.2.2.2.2.1⟩

/-- C13: the dispatch timestamp is stamped if and only if the new status is exactly
"Dispatched".  After `updateOrderStatusHandler` on an order `i` of the order map at the
clock reading `now`, the `DispatchDate` of the stored order, and of the returned one, is
`now` when the new status is the string "Dispatched" and the previous `DispatchDate` for
any other string, "dispatched" and "DISPATCHED" included. -/
theorem updateStatus_stamps_iff_dispatched (s : State) (o : Order) (now : Time)
    (order : Order) (hget : s.OrderMap.get o.ID = some order) (hid : order.ID = o.ID) :
    ∃ r, (updateOrderStatusHandler s o now).1 = .ok r ∧
      (updateOrderStatusHandler s o now).2.OrderMap.get o.ID = some r ∧
      r.DispatchDate = (if o.OrderStatus = "Dispatched" then now else order.DispatchDate) ∧
      (o.OrderStatus = "Dispatched" → r.DispatchDate = now) ∧
      (o.OrderStatus ≠ "Dispatched" → r.DispatchDate = order.DispatchDate) ∧
      (o.OrderStatus = "dispatched" ∨ o.OrderStatus = "DISPATCHED" →
        r.DispatchDate = order.DispatchDate) := by
  rw [updateOrderStatusHandler_of_found s o now order hget hid]
  refine ⟨_, rfl, Ledger.get_set_same _ _ _, rfl, ?_, ?_, ?_⟩
  · intro h; simp [h]
  · intro h; simp [h]
  · intro h
    have : o.OrderStatus ≠ "Dispatched" := by
      rcases h with h | h <;> rw [h] <;> decide
    simp [this]

/-- C13, on an order dispatched at 5: a later update to "dispatched" (lower case) at 9
leaves the `DispatchDate` at 5. -/
theorem updateStatus_stamps_iff_dispatched_witness :
    ∃ r, (updateOrderStatusHandler
        ⟨ProductCatalog, ⟨[(1, ⟨1, [], 500, 5, "Dispatched"⟩)]⟩⟩
        ⟨1, [], 0, 0, "dispatched"⟩ 9).1 = .ok r ∧ r.DispatchDate = 5 :=
  have h := updateStatus_stamps_iff_dispatched
    ⟨ProductCatalog, ⟨[(1, ⟨1, [], 500, 5, "Dispatched"⟩)]⟩⟩ ⟨1, [], 0, 0, "dispatched"⟩ 9
    ⟨1, [], 500, 5, "Dispatched"⟩ (by simp [Ledger.get, lookupEntries]) rfl
  h.elim fun r hr => ⟨r, hr.1, hr.2.2.2.2.2 (Or.inl rfl)⟩

/-! ### The dispatch timestamp across requests -/

theorem updateOrderStatusHandler_get_other (s : State) (o : Order) (now : Time)
    (h : LedgerInv s.OrderMap) (k : Int) (hk : k ≠ o.ID) :
    (updateOrderStatusHandler s o now).2.OrderMap.get k = s.OrderMap.get k := by
  cases hg : s.OrderMap.get o.ID with
  | none => simp [updateOrderStatusHandler, hg]
  | some order =>
    rw [updateOrderStatusHandler_of_found s o now order hg (h.2 _ _ hg)]
    exact Ledger.get_set_other _ _ _ _ hk

theorem placeOrderHandler_get_present (s : State) (order : Order) (h : LedgerInv s.OrderMap)
    (k : Int) (ord : Order) (hk : s.OrderMap.get k = some ord) :
    (placeOrderHandler s order).2.OrderMap.get k = some ord := by
  cases hf : firstFailure s.ProductCatalog order.Products with
  | none =>
    rw [placeOrderHandler_of_pass s order hf]
    have hne : k ≠ (s.OrderMap.len : Int) + 1 := by
      intro he
      rw [he, ledgerInv_fresh _ h] at hk
      cases hk
    simp only [Ledger.get_set_other _ _ _ _ hne, hk]
  | some r =>
    obtain ⟨i, e⟩ := r
    rw [placeOrderHandler_of_fail s order i e hf]
    exact hk

theorem placeOrderHandler_dispatch_zero (s : State) (order : Order)
    (k : Int) (h0 : ∀ ord, s.OrderMap.get k = some ord → ord.DispatchDate = 0) :
    ∀ ord, (placeOrderHandler s order).2.OrderMap.get k = some ord →
      ord.DispatchDate = 0 := by
  intro ord hk
  cases hf : firstFailure s.ProductCatalog order.Products with
  | none =>
    rw [placeOrderHandler_of_pass s order hf] at hk
    by_cases hne : k = (s.OrderMap.len : Int) + 1
    · subst hne
      simp only [Ledger.get_set_same, Option.some.injEq] at hk
      rw [← hk]
    · simp only [Ledger.get_set_other _ _ _ _ hne] at hk
      exact h0 ord hk
  | some r =>
    obtain ⟨i, e⟩ := r
    rw [placeOrderHandler_of_fail s order i e hf] at hk
    exact h0 ord hk

theorem run_dispatch_zero (s : State) (rs : List Request) (k : Int)
    (h : LedgerInv s.OrderMap)
    (h0 : ∀ ord, s.OrderMap.get k = some ord → ord.DispatchDate = 0)
    (hn : dispatchServed s rs k = false) :
    ∀ ord, (run s rs).OrderMap.get k = some ord → ord.DispatchDate = 0 := by
  induction rs generalizing s with
  | nil => exact h0
  | cons r rs ih =>
    simp only [dispatchServed, Bool.or_eq_false_iff] at hn
    obtain ⟨hr, hrs⟩ := hn
    cases r with
    | placeOrder order =>
      exact ih _ (placeOrderHandler_ledger s order h).1
        (placeOrderHandler_dispatch_zero s order k h0) hrs
    | updateOrderStatus o now =>
      refine ih _ (updateOrderStatusHandler_ledger s o now h).1 ?_ hrs
      intro ord hk
      show ord.DispatchDate = 0
      by_cases hko : k = o.ID
      · subst hko
        cases hg : s.OrderMap.get o.ID with
        | none =>
          simp only [handle, updateOrderStatusHandler, hg] at hk
          cases hk
        | some order =>
          simp only [handle] at hk
          rw [updateOrderStatusHandler_of_found s o now order hg (h.2 _ _ hg)] at hk
          simp only [Ledger.get_set_same, Option.some.injEq] at hk
          have hd : o.OrderStatus ≠ "Dispatched" := by
            intro hd
            simp [hd, hg] at hr
          rw [← hk]
          simp only [hd, if_false]
          exact h0 order hg
      · simp only [handle] at hk
        rw [updateOrderStatusHandler_get_other s o now h k hko] at hk
        exact h0 ord hk

/-- C14, as stated, fails on the code: order 1 is placed, dispatched at the clock reading
5 (its `DispatchDate` becomes 5) and then given the status "Dispatched" again at the later
reading 9: its `DispatchDate` becomes 9, it does not stay at 5. -/
theorem dispatch_date_restamped :
    ((run initState [.placeOrder (request [line 1 1]),
        .updateOrderStatus ⟨1, [], 0, 0, "Dispatched"⟩ 5]).OrderMap.get 1).map
      Order.DispatchDate = some 5 ∧
    ((run initState [.placeOrder (request [line 1 1]),
        .updateOrderStatus ⟨1, [], 0, 0, "Dispatched"⟩ 5,
        .updateOrderStatus ⟨1, [], 0, 0, "Dispatched"⟩ 9]).OrderMap.get 1).map
      Order.DispatchDate = some 9 := by
  constructor <;>
    simp [run, handle, updateOrderStatusHandler, placeOrderHandler, placeOrderLoop, loopBody,
      loopInit, initState, request, line, ProductCatalog, Catalog.set, Catalog.read, wrapInt,
      Ledger.len, Ledger.empty, Ledger.get, Ledger.set, assignEntries, lookupEntries]

/-- C14, amended: in every state reached from the empty order map, an order that has not
received an `updateOrderStatus` with the status "Dispatched" has the zero
`DispatchDate`; an `updateOrderStatus` on an existing order leaves its `DispatchDate` as it
was when the new status is not "Dispatched" and sets it to the time of the call when it
is, also when the order was dispatched before; an `updateOrderStatus` on another order and
a `placeOrder` leave the order as it was. -/
theorem dispatch_date_follows_dispatched_updates (c : Catalog) (rs : List Request) :
    (∀ k ord, (run ⟨c, Ledger.empty⟩ rs).OrderMap.get k = some ord →
      dispatchServed ⟨c, Ledger.empty⟩ rs k = false → ord.DispatchDate = 0) ∧
    (∀ o now ord, (run ⟨c, Ledger.empty⟩ rs).OrderMap.get o.ID = some ord →
      ((updateOrderStatusHandler (run ⟨c, Ledger.empty⟩ rs) o now).2.OrderMap.get o.ID).map
          Order.DispatchDate
        = some (if o.OrderStatus = "Dispatched" then now else ord.DispatchDate)) ∧
    (∀ o now k, k ≠ o.ID →
      (updateOrderStatusHandler (run ⟨c, Ledger.empty⟩ rs) o now).2.OrderMap.get k
        = (run ⟨c, Ledger.empty⟩ rs).OrderMap.get k) ∧
    (∀ order k ord, (run ⟨c, Ledger.empty⟩ rs).OrderMap.get k = some ord →
      (placeOrderHandler (run ⟨c, Ledger.empty⟩ rs) order).2.OrderMap.get k = some ord) := by
  obtain ⟨hinv, -⟩ := run_ledger ⟨c, Ledger.empty⟩ rs ledgerInv_empty
  refine ⟨?_, ?_, ?_, ?_⟩
  · intro k ord hk hn
    exact run_dispatch_zero ⟨c, Ledger.empty⟩ rs k ledgerInv_empty
      (by intro ord h; simp [Ledger.empty, Ledger.get, lookupEntries] at h) hn ord hk
  · intro o now ord hg
    rw [updateOrderStatusHandler_of_found _ o now ord hg (hinv.2 _ _ hg)]
    simp [Ledger.get_set_same]
  · intro o now k hk
    exact updateOrderStatusHandler_get_other _ o now hinv k hk
  · intro order k ord hk
    exact placeOrderHandler_get_present _ order hinv k ord hk

/-- C14, amended, on one order: placed and then updated to "Packed" only, order 1 has the
zero `DispatchDate`. -/
theorem dispatch_date_follows_dispatched_updates_witness :
    (run ⟨ProductCatalog, Ledger.empty⟩ [.placeOrder (request [line 1 1]),
        .updateOrderStatus ⟨1, [], 0, 0, "Packed"⟩ 5]).OrderMap.get 1
      = some ⟨1, [⟨1, "Product1", "Premium", 100, 9, 0⟩], 100, 0, "Packed"⟩ ∧
    (⟨1, [⟨1, "Product1", "Premium", 100, 9, 0⟩], 100, 0, "Packed"⟩ : Order).DispatchDate
      = 0 :=
  have h : (run ⟨ProductCatalog, Ledger.empty⟩ [.placeOrder (request [line 1 1]),
        .updateOrderStatus ⟨1, [], 0, 0, "Packed"⟩ 5]).OrderMap.get 1
      = some ⟨1, [⟨1, "Product1", "Premium", 100, 9, 0⟩], 100, 0, "Packed"⟩ := by
    simp [run, handle, updateOrderStatusHandler, placeOrderHandler, placeOrderLoop, loopBody,
      loopInit, request, line, ProductCatalog, Catalog.set, Catalog.read, wrapInt,
      Ledger.len, Ledger.empty, Ledger.get, Ledger.set, assignEntries, lookupEntries]
  ⟨h, (dispatch_date_follows_dispatched_updates ProductCatalog
      [.placeOrder (request [line 1 1]),
        .updateOrderStatus ⟨1, [], 0, 0, "Packed"⟩ 5]).1 1 _ h
      (by
        simp [dispatchServed, handle, updateOrderStatusHandler, placeOrderHandler,
          placeOrderLoop, loopBody, loopInit, request, line, ProductCatalog, Catalog.set,
          Catalog.read, wrapInt, Ledger.len, Ledger.empty, Ledger.get, Ledger.set,
          assignEntries, lookupEntries])⟩

/-! ## Further properties of `placeOrderHandler` -/

/-- C15, on the code: against the seeded product 1 (10 in stock) a request of quantity
`-5` passes both checks of line 105 and succeeds, and the write of line 126 leaves
`10 - (-5) = 15`: the Availability after the call is greater than before it. -/
theorem placeOrder_raises_stock :
    succeeded (placeOrderHandler initState (request [line 1 (-5)])).1 = true ∧
    (initState.ProductCatalog 1).map Product.Availability = some 10 ∧
    ((placeOrderHandler initState (request [line 1 (-5)])).2.ProductCatalog 1).map
      Product.Availability = some 15 := by
  refine ⟨?_, ?_, ?_⟩
  · simp [placeOrderHandler, placeOrderLoop, loopBody, loopInit, initState, request, line,
      ProductCatalog, Catalog.set, Catalog.read, wrapInt, succeeded]
  · simp [initState, ProductCatalog]
  · simp [placeOrderHandler, placeOrderLoop, loopBody, loopInit, initState, request, line,
      ProductCatalog, Catalog.set, Catalog.read, wrapInt]

/-- C16, on the code: every price of the seeded catalog is non-negative, yet a request for
product 4 (price 100) at quantity `-3` succeeds with the `OrderValue` `-300`. -/
theorem placeOrder_value_negative :
    (∀ k p, initState.ProductCatalog k = some p → 0 ≤ p.Price) ∧
    (placeOrderHandler initState (request [line 4 (-3)])).1
      = .ok ⟨1, [⟨4, "Product4", "Premium", 100, 53, 0⟩], -300, 0, "Placed"⟩ ∧
    ((-300 : ℚ) < 0) := by
  refine ⟨?_, ?_, by norm_num⟩
  · intro k p h
    simp only [initState, ProductCatalog] at h
    split_ifs at h <;> (cases h; norm_num)
  · simp [placeOrderHandler, placeOrderLoop, loopBody, loopInit, initState, request, line,
      ProductCatalog, Catalog.set, Catalog.read, wrapInt, Ledger.len, Ledger.empty]
    norm_num

/-- C18: duplicate product IDs in one request compete against a shrinking pool.  There are
a catalog and a line, the seeded catalog and 6 units of product 1 (10 in stock), such that
`placeOrderHandler` succeeds on the line alone but answers `InsufficientStock` on the
request made of the line twice, the first failing line being the second one (index 1),
which is checked against the 4 units left by the first. -/
theorem placeOrder_duplicate_lines_compete :
    ∃ (c : Catalog) (p : Product),
      c = ProductCatalog ∧ p = line 1 6 ∧
      succeeded (placeOrderHandler ⟨c, Ledger.empty⟩ (request [p])).1 = true ∧
      (placeOrderHandler ⟨c, Ledger.empty⟩ (request [p, p])).1
        = .error .InsufficientStock ∧
      firstFailure c [p, p] = some (1, .InsufficientStock) ∧
      lineFailure c p = none ∧
      ((commitLine c p) p.ID).map Product.Availability = some 4 ∧
      lineFailure (commitLine c p) p = some .InsufficientStock := by
  refine ⟨ProductCatalog, line 1 6, rfl, rfl, ?_, ?_, ?_, ?_, ?_, ?_⟩
  · simp [placeOrderHandler, placeOrderLoop, loopBody, loopInit, request, line,
      ProductCatalog, Catalog.set, Catalog.read, wrapInt, succeeded]
  · simp [placeOrderHandler, placeOrderLoop, loopBody, loopInit, request, line,
      ProductCatalog, Catalog.set, Catalog.read, wrapInt]
  · simp [firstFailure, lineFailure, commitLine, line, ProductCatalog, Catalog.set, wrapInt]
  · simp [lineFailure, line, ProductCatalog]
  · simp [commitLine, line, ProductCatalog, Catalog.set, wrapInt]
  · simp [lineFailure, commitLine, line, ProductCatalog, Catalog.set, wrapInt]

/-- C19, on the code: a request that names the one premium product 1 on three lines, at
quantity 1, succeeds and is charged `(100 + 100 + 100) * 0.9 = 270`, less than the
undiscounted sum 300, although its lines name a single distinct "Premium" product ID. -/
theorem placeOrder_discounts_repeated_product :
    (placeOrderHandler initState (request [line 1 1, line 1 1, line 1 1])).1
      = .ok ⟨1, [⟨1, "Product1", "Premium", 100, 9, 0⟩, ⟨1, "Product1", "Premium", 100, 8, 0⟩,
          ⟨1, "Product1", "Premium", 100, 7, 0⟩], 270, 0, "Placed"⟩ ∧
    plainSum initState.ProductCatalog (request [line 1 1, line 1 1, line 1 1]).Products
      = 300 ∧
    (((request [line 1 1, line 1 1, line 1 1]).Products.filter
        (isPremiumLine initState.ProductCatalog)).map Product.ID).dedup = [1] ∧
    ((270 : ℚ) < 300) := by
  refine ⟨?_, ?_, ?_, by norm_num⟩
  · simp [placeOrderHandler, placeOrderLoop, loopBody, loopInit, initState, request, line,
      ProductCatalog, Catalog.set, Catalog.read, wrapInt, Ledger.len, Ledger.empty]
    norm_num
  · simp [plainSum, lineAmount, initState, request, line, ProductCatalog, Catalog.read]
    norm_num
  · simp [isPremiumLine, initState, request, line, ProductCatalog, Catalog.read]

/-- C20: the exact state after a failed `placeOrderHandler`.  When the call fails there is
a first failing line, of index `i`; the order map is unchanged; the catalog is the
original one with the writes of the lines `0 .. i - 1` applied in order and no other; and
no order ID is consumed: a `placeOrder` that succeeds next is assigned `len + 1`, the ID a
successful `placeOrder` gets without the failed call. -/
theorem placeOrder_failure_exact_state (s : State) (order : Order) (e : Failure)
    (h : (placeOrderHandler s order).1 = .error e) :
    ∃ i p, order.Products[i]? = some p ∧
      lineFailure (commitLines s.ProductCatalog (order.Products.take i)) p = some e ∧
      (∀ j q, j < i → order.Products[j]? = some q →
        lineFailure (commitLines s.ProductCatalog (order.Products.take j)) q = none) ∧
      (placeOrderHandler s order).2.OrderMap = s.OrderMap ∧
      (placeOrderHandler s order).2.ProductCatalog
        = commitLines s.ProductCatalog (order.Products.take i) ∧
      (∀ next o, (placeOrderHandler (placeOrderHandler s order).2 next).1 = .ok o →
        o.ID = (s.OrderMap.len : Int) + 1) ∧
      (∀ next o, (placeOrderHandler s next).1 = .ok o →
        o.ID = (s.OrderMap.len : Int) + 1) := by
  have hid : ∀ (t : State) (next o : Order), (placeOrderHandler t next).1 = .ok o →
      o.ID = (t.OrderMap.len : Int) + 1 := by
    intro t next o ho
    have hf := (placeOrderHandler_ok_iff t next).1 ⟨o, ho⟩
    rw [placeOrderHandler_of_pass t next hf] at ho
    simp only [Except.ok.injEq] at ho
    rw [← ho]
  obtain ⟨i, hi⟩ := (placeOrderHandler_error_iff s order e).1 h
  obtain ⟨⟨p, hp, hl⟩, hall⟩ := (firstFailure_eq_some_iff _ _ i e).1 hi
  have hs := placeOrderHandler_of_fail s order i e hi
  refine ⟨i, p, hp, hl, hall, by rw [hs], by rw [hs], ?_, hid s⟩
  intro next o ho
  have := hid _ next o ho
  rw [hs] at this
  exact this

/-- C20, on the seeded catalog: the request `[{1, 5}, {7, 1}]` fails at its second line
and leaves the order map empty. -/
theorem placeOrder_failure_exact_state_witness :
    (placeOrderHandler initState (request [line 1 5, line 7 1])).2.OrderMap
      = initState.OrderMap :=
  (placeOrder_failure_exact_state initState (request [line 1 5, line 7 1]) .NotFound
    (by
      simp [placeOrderHandler, placeOrderLoop, loopBody, loopInit, initState, request, line,
        ProductCatalog, Catalog.set, Catalog.read, wrapInt])).elim
    fun _ hi => hi.elim fun _ hp => hp.2.2.2.1

/-! ### More on requests whose quantities are not negative

Without a negative quantity the stock is never raised and, on non-negative prices, the
order value is not negative. -/

theorem priceFrom_nonneg (c : Catalog) (ps : List Product) (n : Nat) (t : ℚ) (ht : 0 ≤ t)
    (ha : ∀ p ∈ ps, 0 ≤ lineAmount c p) : 0 ≤ priceFrom c n t ps := by
  induction ps generalizing n t with
  | nil => simpa [priceFrom] using ht
  | cons p ps ih =>
    have hp : 0 ≤ t + lineAmount c p := add_nonneg ht (ha p (List.mem_cons_self _ _))
    have hps : ∀ q ∈ ps, 0 ≤ lineAmount c q := fun q hq => ha q (List.mem_cons_of_mem _ hq)
    simp only [priceFrom]
    by_cases hd : isPremiumLine c p = true ∧
        3 ≤ n + (if isPremiumLine c p = true then 1 else 0)
    · rw [if_pos hd]
      exact ih _ _ (mul_nonneg hp (by norm_num)) hps
    · rw [if_neg hd]
      exact ih _ _ hp hps

/-- The order value is not negative without negative quantities: on a catalog whose prices
are all non-negative, a successful `placeOrderHandler` whose lines have no negative
quantity returns an order of non-negative `OrderValue`. -/
theorem placeOrder_value_nonneg_of_nonneg (s : State) (order o : Order)
    (h : (placeOrderHandler s order).1 = .ok o)
    (hprice : ∀ k p, s.ProductCatalog k = some p → 0 ≤ p.Price)
    (hq : ∀ p ∈ order.Products, 0 ≤ p.Quantity) : 0 ≤ o.OrderValue := by
  have hf := (placeOrderHandler_ok_iff s order).1 ⟨o, h⟩
  rw [placeOrderHandler_of_pass s order hf] at h
  simp only [Except.ok.injEq] at h
  subst h
  refine priceFrom_nonneg _ _ 0 0 (le_refl 0) ?_
  intro p hp
  have h1 : (0 : ℚ) ≤ (p.Quantity : ℚ) := by exact_mod_cast hq p hp
  have h2 : 0 ≤ (s.ProductCatalog.read p.ID).Price := by
    unfold Catalog.read
    cases hc : s.ProductCatalog p.ID with
    | none => simp [Product.zero]
    | some x => simpa using hprice _ _ hc
  exact mul_nonneg h1 h2

/-- The stock is not raised without negative quantities: on a catalog of non-negative Go
`int` stocks, a `placeOrderHandler` call whose lines have no negative quantity, successful
or failed, leaves no product with more Availability than it had, and neither adds nor
removes a product. -/
theorem placeOrder_stock_not_raised_of_nonneg (s : State) (order : Order)
    (hc : StockInRange s.ProductCatalog) (hq : ∀ p ∈ order.Products, 0 ≤ p.Quantity)
    (k : Int) :
    (∀ x', (placeOrderHandler s order).2.ProductCatalog k = some x' →
      ∃ x, s.ProductCatalog k = some x ∧ x'.Availability ≤ x.Availability) ∧
    ((placeOrderHandler s order).2.ProductCatalog k).isSome = (s.ProductCatalog k).isSome := by
  have key : ∀ (ps : List Product) (v : LoopVars), StockInRange v.catalog →
      (∀ p ∈ ps, 0 ≤ p.Quantity) →
      (∀ x', (placeOrderLoop ps v).2.catalog k = some x' →
        ∃ x, v.catalog k = some x ∧ x'.Availability ≤ x.Availability) ∧
      ((placeOrderLoop ps v).2.catalog k).isSome = (v.catalog k).isSome := by
    intro ps
    induction ps with
    | nil => intro v _ _; exact ⟨fun x' hx => ⟨x', hx, le_refl _⟩, rfl⟩
    | cons p ps ih =>
      intro v hv hq
      cases hl : lineFailure v.catalog p with
      | some e =>
        have hstop : placeOrderLoop (p :: ps) v = (some e, v) := by
          simp only [placeOrderLoop, loopBody_of_fail p v e hl]
        rw [hstop]
        exact ⟨fun x' hx => ⟨x', hx, le_refl _⟩, rfl⟩
      | none =>
        have hq0 := hq p (List.mem_cons_self _ _)
        obtain ⟨hv', hav⟩ := commitLine_stock v.catalog p hv hl hq0
        simp only [placeOrderLoop, loopBody_of_pass p v hl]
        obtain ⟨ih1, ih2⟩ := ih
          { premiumCount := v.premiumCount + (if isPremiumLine v.catalog p then 1 else 0),
            products := v.products ++ [(commitLine v.catalog p).read p.ID],
            orderValue :=
              (if isPremiumLine v.catalog p = true ∧ 3 ≤ v.premiumCount + 1
                then (v.orderValue + lineAmount v.catalog p) * (9 / 10)
                else v.orderValue + lineAmount v.catalog p),
            catalog := commitLine v.catalog p } hv'
          (fun q hq' => hq q (List.mem_cons_of_mem _ hq'))
        constructor
        · intro x' hx
          obtain ⟨y, hy, hle⟩ := ih1 x' hx
          have hk := hav k
          simp only at hy
          rw [hy] at hk
          cases hx0 : v.catalog k with
          | none => simp [hx0] at hk
          | some x =>
            simp only [hx0, Option.map_some', Option.some.injEq] at hk
            refine ⟨x, rfl, ?_⟩
            by_cases hpk : p.ID = k
            · simp only [hpk, if_true] at hk
              omega
            · simp only [hpk, if_false] at hk
              omega
        · rw [ih2]
          exact commitLine_isSome v.catalog p k
  have := key order.Products (loopInit s.ProductCatalog) hc hq
  unfold placeOrderHandler
  cases hp : placeOrderLoop order.Products (loopInit s.ProductCatalog) with
  | mk r v =>
    rw [hp] at this
    cases r <;> exact this

end GolangTest
